import Mathlib

/-!
AdResult (admob/src/android/ad_result_android.cc)

A shallow embedding of the Android implementation of `firebase::admob::AdResult`:
a value type that owns a JNI global reference to a Java `AdError` object (or none,
meaning success), lazily caches the error's code / domain / message / string form,
and hands out its cause as a fresh `AdResult`.

Modelling choices

* The JNI side is an explicit state `JNIEnv`: the global-reference table, a log of the
  Java methods invoked through `Call*Method`, and a log of `DeleteGlobalRef` calls.
  Java `AdError` objects are natural numbers; what their methods return is given by a
  parameter `AdError` of pure functions.
* A JNI operation applied to a reference that is not valid (a released global
  reference) aborts: every operation returns an `Option`, `none` meaning that an
  assertion failed or the JNI was misused.
* `GetJNI()` is defined outside this file; it is taken to return the attached
  environment, so `FIREBASE_ASSERT(env)` always passes.
* `domain()`, `message()` and `ToString()` return `const std::string&`. What they
  return is a `StringRef`: a reference to a member string, or, on the path
  `return std::string();`, a reference to a temporary that no longer exists.
* `MutexLock(internal_->mutex);` only matters to concurrent executions; the model is
  sequential and leaves the mutex out.
* `AdResult` objects live in a store `World.objects`, addressed by their index, so
  that `operator=` can be run with `this` and its argument being the same object.
-/

namespace AdMob

/-! ## JNI -/

/-- A JNI object reference: null, a local reference (valid during the current native
call, carried as the object it denotes) or a global reference (a slot of the
global-reference table). -/
inductive jobject where
  | null
  | localRef (obj : Nat)
  | globalRef (id : Nat)
  deriving DecidableEq, Repr

/-- Modelled from the spec: the macro `ADERROR_METHODS` (ad_result_android.h) is not
among the sources. These are the methods of `com.google.android.gms.ads.AdError`
that ad_result_android.cc looks up through `ad_error::GetMethodId`, the spec's
foreign accessors for cause, code, domain, message and string. -/
inductive Method where
  | kGetCause
  | kGetCode
  | kGetDomain
  | kGetMessage
  | kToString
  deriving DecidableEq, Repr

/-- Modelled from the spec: the Java class `AdError` lives on the other side of the
JNI boundary. What its methods return is a parameter of the model, pure functions of
the object (`ForeignGetCode`, `ForeignGetDomain`, ... of spec section 6); `getCause`
returns another `AdError` object or null. -/
structure AdError where
  getCause : Nat → Option Nat
  getCode : Nat → Int
  getDomain : Nat → String
  getMessage : Nat → String
  toString : Nat → String

/-- The state of the JNI environment.
`globals[r] = (o, live)`: global reference `r` was created for object `o` and is
still live (`true`) or has been deleted (`false`).
`calls` logs every Java method invocation (method, receiver object).
`deleted` logs the argument of every `DeleteGlobalRef` call. -/
structure JNIEnv where
  globals : List (Nat × Bool)
  calls : List (Method × Nat)
  deleted : List jobject
  deriving DecidableEq, Repr

/-- The object a reference denotes, when the reference is valid and not null. -/
def JNIEnv.resolve (env : JNIEnv) (j : jobject) : Option Nat :=
  match j with
  | .null => none
  | .localRef o => some o
  | .globalRef r =>
    match env.globals[r]? with
    | some (o, true) => some o
    | _ => none

/-- `env->NewGlobalRef(j)`: null for null; otherwise a new global reference (the next
free slot) to the object `j` denotes. Aborts on an invalid reference. -/
def JNIEnv.NewGlobalRef (env : JNIEnv) (j : jobject) : Option (jobject × JNIEnv) :=
  if j = .null then some (.null, env)
  else
    match env.resolve j with
    | some o =>
      some (.globalRef env.globals.length, { env with globals := env.globals ++ [(o, true)] })
    | none => none

/-- `env->DeleteGlobalRef(j)`: a no-op on null; releases a live global reference;
aborts on anything else (a local reference, a reference already deleted). -/
def JNIEnv.DeleteGlobalRef (env : JNIEnv) (j : jobject) : Option JNIEnv :=
  match j with
  | .null => some { env with deleted := env.deleted ++ [.null] }
  | .localRef _ => none
  | .globalRef r =>
    match env.globals[r]? with
    | some (o, true) =>
      some { env with globals := env.globals.set r (o, false),
                      deleted := env.deleted ++ [.globalRef r] }
    | _ => none

/-- The common part of `Call*Method(j, methodID)`: the receiver must be a valid
non-null reference; the invocation is logged. -/
def JNIEnv.invoke (env : JNIEnv) (j : jobject) (m : Method) : Option (Nat × JNIEnv) :=
  match env.resolve j with
  | some o => some (o, { env with calls := env.calls ++ [(m, o)] })
  | none => none

/-- `env->CallIntMethod(j, ad_error::GetMethodId(m))`; `getCode` is the only
`int` method. -/
def JNIEnv.CallIntMethod (cls : AdError) (env : JNIEnv) (j : jobject) (m : Method) :
    Option (Int × JNIEnv) :=
  match m with
  | .kGetCode =>
    match env.invoke j m with
    | some (o, env1) => some (cls.getCode o, env1)
    | none => none
  | _ => none

/-- `env->CallObjectMethod(j, ad_error::GetMethodId(kGetCause))`: a local reference
to the cause, or null. -/
def JNIEnv.CallObjectMethod (cls : AdError) (env : JNIEnv) (j : jobject) (m : Method) :
    Option (jobject × JNIEnv) :=
  match m with
  | .kGetCause =>
    match env.invoke j m with
    | some (o, env1) =>
      match cls.getCause o with
      | some c => some (.localRef c, env1)
      | none => some (.null, env1)
    | none => none
  | _ => none

/-- `env->CallObjectMethod(j, ...)` for one of the `String` methods, followed by
`util::JStringToString` and `DeleteLocalRef` of the Java string. -/
def JNIEnv.CallStringMethod (cls : AdError) (env : JNIEnv) (j : jobject) (m : Method) :
    Option (String × JNIEnv) :=
  match env.invoke j m with
  | some (o, env1) =>
    match m with
    | .kGetDomain => some (cls.getDomain o, env1)
    | .kGetMessage => some (cls.getMessage o, env1)
    | .kToString => some (cls.toString o, env1)
    | _ => none
  | none => none

/-! ## AdResult -/

/-- Modelled from the spec: the declaration of `struct AdResultInternal`
(ad_result_android.h) is not among the sources. It holds the reference to the Java
`AdError` object (`foreign_ref`) and the mutex (`guard`), which is left out. -/
structure AdResultInternal where
  j_ad_error : jobject
  deriving DecidableEq, Repr

/-- The expression `new AdResultInternal()`: the parentheses value-initialise the
struct, so its reference starts null. -/
def AdResultInternal.fresh : AdResultInternal :=
  { j_ad_error := .null }

/-- Modelled from the spec: the declaration of `class AdResult` (types.h) is not among
the sources. These are the data members the member functions of
ad_result_android.cc use (`foreign_ref` behind `internal_`, `cached_code`,
`cached_domain`, `cached_message`, `cached_display_string`). `internal_` is `none`
for a null pointer. -/
structure AdResult where
  internal_ : Option AdResultInternal
  code_ : Int
  domain_ : String
  message_ : String
  to_string_ : String
  deriving DecidableEq, Repr

/-- The reference held by an `AdResult` (null when `internal_` is a null pointer). -/
def AdResult.ref (h : AdResult) : jobject :=
  match h.internal_ with
  | some x => x.j_ad_error
  | none => .null

/-- `AdResult::AdResult(const AdResultInternal&)`. -/
def AdResult.construct (env : JNIEnv) (ad_result_internal : AdResultInternal) :
    Option (AdResult × JNIEnv) :=
  match env.NewGlobalRef ad_result_internal.j_ad_error with
  | some (g, env1) =>
    some ({ internal_ := some { AdResultInternal.fresh with j_ad_error := g },
            code_ := 0, domain_ := "", message_ := "", to_string_ := "" }, env1)
  | none => none

/-- `AdResult::~AdResult()`, the destructor body. -/
def AdResult.destructor (env : JNIEnv) (h : AdResult) : Option (AdResult × JNIEnv) :=
  match h.internal_ with
  | none => none
  | some x =>
    if x.j_ad_error ≠ .null then
      match env.DeleteGlobalRef x.j_ad_error with
      | some env1 => some ({ h with internal_ := none }, env1)
      | none => none
    else some (h, env)

/-- `AdResult::is_successful()`. -/
def AdResult.is_successful (h : AdResult) : Option Bool :=
  match h.internal_ with
  | none => none
  | some x => some (decide (x.j_ad_error = .null))

/-- `AdResult::GetCause()`: `some none` is the null `unique_ptr`. -/
def AdResult.GetCause (cls : AdError) (env : JNIEnv) (h : AdResult) :
    Option (Option AdResult × JNIEnv) :=
  match h.internal_ with
  | none => none
  | some x =>
    if x.j_ad_error = .null then some (none, env)
    else
      match env.CallObjectMethod cls x.j_ad_error .kGetCause with
      | none => none
      | some (j_ad_error, env1) =>
        match AdResult.construct env1 { j_ad_error := j_ad_error } with
        | some (ad_result, env2) => some (some ad_result, env2)
        | none => none

/-- `AdResult::code()`. -/
def AdResult.code (cls : AdError) (env : JNIEnv) (h : AdResult) :
    Option (Int × AdResult × JNIEnv) :=
  match h.internal_ with
  | none => none
  | some x =>
    if x.j_ad_error = .null then some (0, h, env)
    else if h.code_ ≠ 0 then some (h.code_, h, env)
    else
      match env.CallIntMethod cls x.j_ad_error .kGetCode with
      | some (c, env1) => some (c, { h with code_ := c }, env1)
      | none => none

/-- What a function declared to return `const std::string&` hands back: a reference
to a string that is alive (carried as its contents), or a reference to a temporary
that has already been destroyed, which the caller cannot read. -/
inductive StringRef where
  | valid (s : String)
  | dangling
  deriving DecidableEq, Repr

/-- `AdResult::domain()`. The function returns `const std::string&`: on a handle
without reference it executes `return std::string();`, which hands back a reference
to a temporary destroyed on return; otherwise it returns a reference to the member
`domain_`. -/
def AdResult.domain (cls : AdError) (env : JNIEnv) (h : AdResult) :
    Option (StringRef × AdResult × JNIEnv) :=
  match h.internal_ with
  | none => none
  | some x =>
    if x.j_ad_error = .null then some (.dangling, h, env)
    else if h.domain_ ≠ "" then some (.valid h.domain_, h, env)
    else
      match env.CallStringMethod cls x.j_ad_error .kGetDomain with
      | some (s, env1) => some (.valid s, { h with domain_ := s }, env1)
      | none => none

/-- `AdResult::message()`. The function returns `const std::string&`: on a handle
without reference it executes `return std::string();`, which hands back a reference
to a temporary destroyed on return; otherwise it returns a reference to the member
`message_`. -/
def AdResult.message (cls : AdError) (env : JNIEnv) (h : AdResult) :
    Option (StringRef × AdResult × JNIEnv) :=
  match h.internal_ with
  | none => none
  | some x =>
    if x.j_ad_error = .null then some (.dangling, h, env)
    else if h.message_ ≠ "" then some (.valid h.message_, h, env)
    else
      match env.CallStringMethod cls x.j_ad_error .kGetMessage with
      | some (s, env1) => some (.valid s, { h with message_ := s }, env1)
      | none => none

/-- `AdResult::ToString()`. The function returns `const std::string&`: on a handle
without reference it executes `return std::string();`, which hands back a reference
to a temporary destroyed on return; otherwise it returns a reference to the member
`to_string_`. -/
def AdResult.ToString (cls : AdError) (env : JNIEnv) (h : AdResult) :
    Option (StringRef × AdResult × JNIEnv) :=
  match h.internal_ with
  | none => none
  | some x =>
    if x.j_ad_error = .null then some (.dangling, h, env)
    else if h.to_string_ ≠ "" then some (.valid h.to_string_, h, env)
    else
      match env.CallStringMethod cls x.j_ad_error .kToString with
      | some (s, env1) => some (.valid s, { h with to_string_ := s }, env1)
      | none => none

/-- `AdResult::set_to_string(std::string)`. -/
def AdResult.set_to_string (h : AdResult) (to_string : String) : AdResult :=
  { h with to_string_ := to_string }

/-! ## The store of AdResult objects -/

/-- The program state: the JNI environment and the `AdResult` objects allocated so
far, addressed by index; an entry is `none` once the object has been destroyed. -/
structure World where
  env : JNIEnv
  objects : List (Option AdResult)
  deriving DecidableEq, Repr

/-- The state before any `AdResult` exists. -/
def World.init : World :=
  { env := { globals := [], calls := [], deleted := [] }, objects := [] }

/-- The live object at address `i`. -/
def World.get (w : World) (i : Nat) : Option AdResult :=
  (w.objects[i]?).join

/-- Overwrite the object at address `i`. -/
def World.put (w : World) (i : Nat) (h : AdResult) : World :=
  { w with objects := w.objects.set i (some h) }

/-- Run a member update on the live object at address `i`. -/
def World.update (w : World) (i : Nat) (f : AdResult → AdResult) : World :=
  match w.get i with
  | some h => w.put i (f h)
  | none => w

/-- Construction: `new AdResult(ad_result_internal)`; returns the new address. -/
def World.construct (w : World) (ad_result_internal : AdResultInternal) :
    Option (Nat × World) :=
  match AdResult.construct w.env ad_result_internal with
  | some (h, env1) => some (w.objects.length, { env := env1, objects := w.objects ++ [some h] })
  | none => none

/-- `AdResult::operator=(const AdResult& ad_result)` run on the object at address
`this`, with `ad_result` the object at address `ad_result` (possibly the same one).
Every statement reads and writes the store, as the C++ does through `this` and the
reference `ad_result`. -/
def World.operatorAssign (w : World) (this ad_result : Nat) : Option World := do
  let other ← w.get ad_result
  let self ← w.get this
  -- FIREBASE_ASSERT(ad_result.internal_); FIREBASE_ASSERT(internal_);
  let _ ← other.internal_
  -- AdResultInternal* preexisting_internal = internal_;
  let preexisting_internal ← self.internal_
  -- internal_ = new AdResultInternal();
  let w1 := w.update this fun t => { t with internal_ := some AdResultInternal.fresh }
  -- internal_->j_ad_error = env->NewGlobalRef(ad_result.internal_->j_ad_error);
  let other1 ← w1.get ad_result
  let other_internal ← other1.internal_
  let (g, env2) ← w1.env.NewGlobalRef other_internal.j_ad_error
  let w2 := World.update { w1 with env := env2 } this fun t =>
    { t with internal_ := t.internal_.map fun x => { x with j_ad_error := g } }
  -- code_ = ad_result.code_;
  let other2 ← w2.get ad_result
  let w3 := w2.update this fun t => { t with code_ := other2.code_ }
  -- domain_ = ad_result.domain_;
  let other3 ← w3.get ad_result
  let w4 := w3.update this fun t => { t with domain_ := other3.domain_ }
  -- message_ = ad_result.message_;
  let other4 ← w4.get ad_result
  let w5 := w4.update this fun t => { t with message_ := other4.message_ }
  -- to_string_ = ad_result.to_string_;
  let other5 ← w5.get ad_result
  let w6 := w5.update this fun t => { t with to_string_ := other5.to_string_ }
  -- env->DeleteGlobalRef(preexisting_internal->j_ad_error); delete preexisting_internal;
  let env7 ← w6.env.DeleteGlobalRef preexisting_internal.j_ad_error
  pure { w6 with env := env7 }

/-- Destruction of the object at address `i`: the destructor runs, then the object
is gone. -/
def World.destroy (w : World) (i : Nat) : Option World :=
  match w.get i with
  | none => none
  | some h =>
    match AdResult.destructor w.env h with
    | some (_, env1) => some { env := env1, objects := w.objects.set i none }
    | none => none

/-- `is_successful()` on the object at address `i`. -/
def World.is_successful (w : World) (i : Nat) : Option Bool :=
  match w.get i with
  | none => none
  | some h => h.is_successful

/-- `GetCause()` on the object at address `i`: the returned `unique_ptr` is null
(`none`) or the address of a newly allocated `AdResult`. -/
def World.GetCause (cls : AdError) (w : World) (i : Nat) : Option (Option Nat × World) :=
  match w.get i with
  | none => none
  | some h =>
    match h.GetCause cls w.env with
    | some (some c, env1) =>
      some (some w.objects.length, { env := env1, objects := w.objects ++ [some c] })
    | some (none, env1) => some (none, { w with env := env1 })
    | none => none

/-- `code()` on the object at address `i`. -/
def World.code (cls : AdError) (w : World) (i : Nat) : Option (Int × World) :=
  match w.get i with
  | none => none
  | some h =>
    match h.code cls w.env with
    | some (v, h1, env1) => some (v, { env := env1, objects := w.objects.set i (some h1) })
    | none => none

/-- `domain()` on the object at address `i`. -/
def World.domain (cls : AdError) (w : World) (i : Nat) :
    Option (StringRef × World) :=
  match w.get i with
  | none => none
  | some h =>
    match h.domain cls w.env with
    | some (v, h1, env1) => some (v, { env := env1, objects := w.objects.set i (some h1) })
    | none => none

/-- `message()` on the object at address `i`. -/
def World.message (cls : AdError) (w : World) (i : Nat) :
    Option (StringRef × World) :=
  match w.get i with
  | none => none
  | some h =>
    match h.message cls w.env with
    | some (v, h1, env1) => some (v, { env := env1, objects := w.objects.set i (some h1) })
    | none => none

/-- `ToString()` on the object at address `i`. -/
def World.ToString (cls : AdError) (w : World) (i : Nat) :
    Option (StringRef × World) :=
  match w.get i with
  | none => none
  | some h =>
    match h.ToString cls w.env with
    | some (v, h1, env1) => some (v, { env := env1, objects := w.objects.set i (some h1) })
    | none => none

/-- `set_to_string(to_string)` on the object at address `i`. -/
def World.set_to_string (w : World) (i : Nat) (to_string : String) : Option World :=
  match w.get i with
  | none => none
  | some h => some { w with objects := w.objects.set i (some (h.set_to_string to_string)) }

/-- The operations on `AdResult` objects: construction, copy-assignment, destruction,
the accessors and the setter `set_to_string`. `construct none` builds a handle from
null, `construct (some o)` from a local reference to the Java object `o`. -/
inductive Op where
  | construct (o : Option Nat)
  | assign (dst src : Nat)
  | destroy (i : Nat)
  | is_successful (i : Nat)
  | GetCause (i : Nat)
  | code (i : Nat)
  | domain (i : Nat)
  | message (i : Nat)
  | ToString (i : Nat)
  | set_to_string (i : Nat) (to_string : String)
  deriving DecidableEq, Repr

/-- Whether the operation is the setter `set_to_string`. -/
def Op.isSetter (op : Op) : Bool :=
  match op with
  | .set_to_string _ _ => true
  | _ => false

/-- The reference a client passes to the constructor. -/
def argRef (o : Option Nat) : jobject :=
  match o with
  | some obj => .localRef obj
  | none => .null

/-- One operation; `none` when it aborts (an assertion fails, or an object that has
been destroyed is used). -/
def World.step (cls : AdError) (w : World) (op : Op) : Option World :=
  match op with
  | .construct o => (w.construct { j_ad_error := argRef o }).map Prod.snd
  | .assign dst src => w.operatorAssign dst src
  | .destroy i => w.destroy i
  | .is_successful i => (w.is_successful i).map fun _ => w
  | .GetCause i => (w.GetCause cls i).map Prod.snd
  | .code i => (w.code cls i).map Prod.snd
  | .domain i => (w.domain cls i).map Prod.snd
  | .message i => (w.message cls i).map Prod.snd
  | .ToString i => (w.ToString cls i).map Prod.snd
  | .set_to_string i s => w.set_to_string i s

/-- A sequence of operations, from left to right. -/
def World.run (cls : AdError) (w : World) (ops : List Op) : Option World :=
  match ops with
  | [] => some w
  | op :: rest =>
    match w.step cls op with
    | some w1 => w1.run cls rest
    | none => none

/-- An `AdError` class for examples: object 1 is caused by 2, 2 by 3, 3 has no cause;
object `o` has code `o`, except object 9 whose code is 0 and whose strings are
empty. -/
def sampleAdError : AdError :=
  { getCause := fun o => if o = 1 then some 2 else if o = 2 then some 3 else none
    getCode := fun o => if o = 9 then 0 else o
    getDomain := fun o => if o = 9 then "" else "com.google.android.gms.ads"
    getMessage := fun o => if o = 9 then "" else "No fill."
    toString := fun o => if o = 9 then "" else "AdError" }

/-- The accessors of `AdResult`. -/
inductive Accessor where
  | is_successful
  | GetCause
  | code
  | domain
  | message
  | ToString
  deriving DecidableEq, Repr

/-- The accessor `a` called on the object at address `i`. -/
def Accessor.toOp (i : Nat) (a : Accessor) : Op :=
  match a with
  | .is_successful => .is_successful i
  | .GetCause => .GetCause i
  | .code => .code i
  | .domain => .domain i
  | .message => .message i
  | .ToString => .ToString i

/-- An `AdResult` for the Java object 1 behind global reference 0, its code already
cached. -/
def sampleHandle : AdResult :=
  { internal_ := some { j_ad_error := .globalRef 0 }, code_ := 1,
    domain_ := "", message_ := "", to_string_ := "" }

/-- An `AdResult` built from null. -/
def nullHandle : AdResult :=
  { internal_ := some { j_ad_error := .null }, code_ := 0,
    domain_ := "", message_ := "", to_string_ := "" }

/-- The store after `construct (some 1)` and `code 0`. -/
def sampleWorld : World :=
  { env := { globals := [(1, true)], calls := [(.kGetCode, 1)], deleted := [] }
    objects := [some sampleHandle] }

/-- The store after `construct (some 1)`, `code 0` and `construct none`. -/
def sampleWorld2 : World :=
  { env := { globals := [(1, true)], calls := [(.kGetCode, 1)], deleted := [] }
    objects := [some sampleHandle, some nullHandle] }

/-! ## Invariants of the store -/

/-- The cached members of `h` that are populated (not the sentinel `0` / empty string)
hold what the Java object `o` returns. The display string can be replaced through
`set_to_string`, so its agreement is only asked for when `strict` is set, which fits
the stores on which the setter has not been used. -/
def Coherent (cls : AdError) (strict : Bool) (o : Nat) (h : AdResult) : Prop :=
  (h.code_ ≠ 0 → h.code_ = cls.getCode o) ∧
  (h.domain_ ≠ "" → h.domain_ = cls.getDomain o) ∧
  (h.message_ ≠ "" → h.message_ = cls.getMessage o) ∧
  (strict = true → h.to_string_ ≠ "" → h.to_string_ = cls.toString o)

/-- The well-formed stores: every live `AdResult` has an `internal_` whose reference
is null or a live global reference to an object its caches agree with (`valid`); no
two live `AdResult`s hold the same global reference (`inj`); every live global
reference is held by a live `AdResult` (`owned`). -/
structure WF (cls : AdError) (strict : Bool) (w : World) : Prop where
  valid : ∀ i h, w.get i = some h → ∃ x, h.internal_ = some x ∧
    (x.j_ad_error = .null ∨
      ∃ r o, x.j_ad_error = .globalRef r ∧ w.env.globals[r]? = some (o, true) ∧
        Coherent cls strict o h)
  inj : ∀ i k hi hk r, w.get i = some hi → w.get k = some hk →
    hi.ref = .globalRef r → hk.ref = .globalRef r → i = k
  owned : ∀ r o, w.env.globals[r]? = some (o, true) →
    ∃ i h, w.get i = some h ∧ h.ref = .globalRef r

/-- The log of `DeleteGlobalRef` calls agrees with the reference table: every global
reference in the log is a released slot of the table. -/
def LogOK (env : JNIEnv) : Prop :=
  ∀ r, jobject.globalRef r ∈ env.deleted → ∃ o, env.globals[r]? = some (o, false)

/-- The number of outstanding (created and not yet deleted) global references to the
Java object `o`. -/
def outstanding (w : World) (o : Nat) : Nat :=
  ((Finset.range w.env.globals.length).filter
    fun r => w.env.globals[r]? = some (o, true)).card

/-- The number of live `AdResult` objects that hold a reference to the Java
object `o`. -/
def holders (w : World) (o : Nat) : Nat :=
  ((Finset.range w.objects.length).filter
    fun i => (w.get i).bind (fun h => w.env.resolve h.ref) = some o).card

end AdMob

namespace AdMob

variable {st : Bool}

/-! ## The store -/

theorem World.get_mk (env : JNIEnv) (l : List (Option AdResult)) (i : Nat) :
    World.get { env := env, objects := l } i = (l[i]?).join := rfl

theorem World.get_lt {w : World} {i : Nat} {h : AdResult} (hi : w.get i = some h) :
    i < w.objects.length := by
  unfold World.get at hi
  by_contra hlt
  rw [List.getElem?_eq_none (by omega)] at hi
  simp at hi

theorem World.get_set_self {w : World} {i : Nat} {h : AdResult} (hi : w.get i = some h)
    (env : JNIEnv) (x : Option AdResult) :
    World.get { env := env, objects := w.objects.set i x } i = x := by
  have hlt := World.get_lt hi
  simp [World.get_mk, List.getElem?_set_self hlt]

theorem World.get_set_ne (w : World) {i k : Nat} (hne : k ≠ i)
    (env : JNIEnv) (x : Option AdResult) :
    World.get { env := env, objects := w.objects.set i x } k = w.get k := by
  simp [World.get, List.getElem?_set_ne (Ne.symm hne)]

theorem World.get_push_lt {w : World} {k : Nat} (hk : k < w.objects.length)
    (env : JNIEnv) (x : Option AdResult) :
    World.get { env := env, objects := w.objects ++ [x] } k = w.get k := by
  simp [World.get, List.getElem?_append_left hk]

theorem World.get_push_self (w : World) (env : JNIEnv) (x : Option AdResult) :
    World.get { env := env, objects := w.objects ++ [x] } w.objects.length = x := by
  simp [World.get]

theorem World.get_push_some {w : World} {k : Nat} {h : AdResult}
    (env : JNIEnv) (x : Option AdResult)
    (hk : World.get { env := env, objects := w.objects ++ [x] } k = some h) :
    (k < w.objects.length ∧ w.get k = some h) ∨ (k = w.objects.length ∧ x = some h) := by
  have hlt := World.get_lt hk
  simp at hlt
  rcases Nat.lt_or_ge k w.objects.length with h1 | h1
  · left
    rw [World.get_push_lt h1] at hk
    exact ⟨h1, hk⟩
  · right
    have : k = w.objects.length := by omega
    subst this
    rw [World.get_push_self] at hk
    exact ⟨rfl, hk⟩

theorem AdResult.ref_of_internal {h : AdResult} {x : AdResultInternal}
    (hx : h.internal_ = some x) : h.ref = x.j_ad_error := by
  simp [AdResult.ref, hx]

/-! ## Preservation of well-formedness -/

/-- Replacing (or removing) one live object keeps the store well-formed, provided the
reference table changes only at the references of the old and the new object. -/
theorem WF.replace {cls : AdError} {w : World} (hw : WF cls st w) {i : Nat} {h : AdResult}
    (hi : w.get i = some h) (x' : Option AdResult) (env' : JNIEnv)
    (hkeep : ∀ r o, w.env.globals[r]? = some (o, true) → h.ref ≠ .globalRef r →
      env'.globals[r]? = some (o, true))
    (hnew : ∀ r o, env'.globals[r]? = some (o, true) →
      (w.env.globals[r]? = some (o, true) ∧ h.ref ≠ .globalRef r) ∨
      (∃ h', x' = some h' ∧ h'.ref = .globalRef r))
    (hx : ∀ h', x' = some h' → ∃ x, h'.internal_ = some x ∧
      (x.j_ad_error = .null ∨
        ∃ r o, x.j_ad_error = .globalRef r ∧ env'.globals[r]? = some (o, true) ∧
          Coherent cls st o h' ∧
          (∀ o2, w.env.globals[r]? = some (o2, true) → h.ref = .globalRef r))) :
    WF cls st ({ env := env', objects := w.objects.set i x' }) := by
  have old_live : ∀ k hk r, w.get k = some hk → hk.ref = .globalRef r →
      ∃ o, w.env.globals[r]? = some (o, true) := by
    intro k hk r hget href
    obtain ⟨x, hx1, hx2⟩ := hw.valid k hk hget
    rw [AdResult.ref_of_internal hx1] at href
    rcases hx2 with h0 | ⟨r1, o, h1, h2, _⟩
    · rw [h0] at href; cases href
    · rw [h1] at href; cases href; exact ⟨o, h2⟩
  refine ⟨?_, ?_, ?_⟩
  · intro k hk hget
    by_cases hki : k = i
    · subst hki
      rw [World.get_set_self hi] at hget
      obtain ⟨x, hx1, hx2⟩ := hx hk hget
      refine ⟨x, hx1, ?_⟩
      rcases hx2 with h0 | ⟨r, o, h1, h2, h3, _⟩
      · exact Or.inl h0
      · exact Or.inr ⟨r, o, h1, h2, h3⟩
    · rw [World.get_set_ne w hki] at hget
      obtain ⟨x, hx1, hx2⟩ := hw.valid k hk hget
      refine ⟨x, hx1, ?_⟩
      rcases hx2 with h0 | ⟨r, o, h1, h2, h3⟩
      · exact Or.inl h0
      · refine Or.inr ⟨r, o, h1, hkeep r o h2 ?_, h3⟩
        intro href
        exact hki (hw.inj k i hk h r hget hi (by rw [AdResult.ref_of_internal hx1, h1]) href)
  · intro k1 k2 h1 h2 r hg1 hg2 hr1 hr2
    have key : ∀ k hk h', k ≠ i → w.get k = some hk → hk.ref = .globalRef r →
        x' = some h' → h'.ref = .globalRef r → False := by
      intro k hk h' hki hgk hrk hx' hr'
      obtain ⟨x, hx1, hx2⟩ := hx h' hx'
      rw [AdResult.ref_of_internal hx1] at hr'
      rcases hx2 with h0 | ⟨r1, o, e1, _, _, e4⟩
      · rw [h0] at hr'; cases hr'
      · rw [e1] at hr'; cases hr'
        obtain ⟨o2, ho2⟩ := old_live k hk r hgk hrk
        exact hki (hw.inj k i hk h r hgk hi hrk (e4 o2 ho2))
    by_cases hk1 : k1 = i <;> by_cases hk2 : k2 = i
    · rw [hk1, hk2]
    · exfalso
      subst hk1
      rw [World.get_set_self hi] at hg1
      rw [World.get_set_ne w hk2] at hg2
      exact key k2 h2 h1 hk2 hg2 hr2 hg1 hr1
    · exfalso
      subst hk2
      rw [World.get_set_self hi] at hg2
      rw [World.get_set_ne w hk1] at hg1
      exact key k1 h1 h2 hk1 hg1 hr1 hg2 hr2
    · rw [World.get_set_ne w hk1] at hg1
      rw [World.get_set_ne w hk2] at hg2
      exact hw.inj k1 k2 h1 h2 r hg1 hg2 hr1 hr2
  · intro r o hlive
    rcases hnew r o hlive with ⟨hold, hne⟩ | ⟨h', hx', hr'⟩
    · obtain ⟨k, hk, hgk, hrk⟩ := hw.owned r o hold
      have hki : k ≠ i := by
        intro e
        subst e
        rw [hi] at hgk
        cases hgk
        exact hne hrk
      exact ⟨k, hk, by rw [World.get_set_ne w hki]; exact hgk, hrk⟩
    · exact ⟨i, h', by rw [World.get_set_self hi]; exact hx', hr'⟩

theorem WF.init (cls : AdError) : WF cls st World.init := by
  refine ⟨?_, ?_, ?_⟩
  · intro i h hi
    simp [World.init, World.get] at hi
  · intro i k hi hk r h1
    simp [World.init, World.get] at h1
  · intro r o h1
    simp [World.init] at h1

theorem WF.live {cls : AdError} {w : World} (hw : WF cls st w) {k : Nat} {hk : AdResult} {r : Nat}
    (hget : w.get k = some hk) (href : hk.ref = .globalRef r) :
    ∃ o, w.env.globals[r]? = some (o, true) ∧ Coherent cls st o hk := by
  obtain ⟨x, hx1, hx2⟩ := hw.valid k hk hget
  rw [AdResult.ref_of_internal hx1] at href
  rcases hx2 with h0 | ⟨r1, o, h1, h2, h3⟩
  · rw [h0] at href; cases href
  · rw [h1] at href; cases href; exact ⟨o, h2, h3⟩

theorem getElem?_some_lt {α : Type} {l : List α} {r : Nat} {a : α} (h : l[r]? = some a) :
    r < l.length := by
  by_contra hlt
  rw [List.getElem?_eq_none (by omega)] at h
  cases h

/-- Allocating a new object keeps the store well-formed, when the new object holds null
or the global reference just created. -/
theorem WF.push {cls : AdError} {w : World} (hw : WF cls st w) (hn : AdResult) (env' : JNIEnv)
    (hcase : (hn.internal_ = some { j_ad_error := .null } ∧ env'.globals = w.env.globals) ∨
      (∃ o, hn.internal_ = some { j_ad_error := .globalRef w.env.globals.length } ∧
        env'.globals = w.env.globals ++ [(o, true)] ∧ Coherent cls st o hn)) :
    WF cls st ({ env := env', objects := w.objects ++ [some hn] }) := by
  have keep : ∀ (r o : Nat), w.env.globals[r]? = some (o, true) →
      env'.globals[r]? = some (o, true) := by
    intro r o hl
    rcases hcase with ⟨_, e⟩ | ⟨o1, _, e, _⟩
    · rw [e]; exact hl
    · rw [e, List.getElem?_append_left (getElem?_some_lt hl)]; exact hl
  have newref : ∀ r, hn.ref = .globalRef r → r = w.env.globals.length := by
    intro r hr
    rcases hcase with ⟨e, _⟩ | ⟨o1, e, _, _⟩
    · rw [AdResult.ref_of_internal e] at hr; cases hr
    · rw [AdResult.ref_of_internal e] at hr; cases hr; rfl
  have oldref : ∀ k hk r, w.get k = some hk → hk.ref = .globalRef r →
      r ≠ w.env.globals.length := by
    intro k hk r hget href
    obtain ⟨o, hl, _⟩ := hw.live hget href
    exact Nat.ne_of_lt (getElem?_some_lt hl)
  refine ⟨?_, ?_, ?_⟩
  · intro k hk hget
    rcases World.get_push_some env' (some hn) hget with ⟨_, hold⟩ | ⟨_, hnew⟩
    · obtain ⟨x, hx1, hx2⟩ := hw.valid k hk hold
      refine ⟨x, hx1, ?_⟩
      rcases hx2 with h0 | ⟨r, o, h1, h2, h3⟩
      · exact Or.inl h0
      · exact Or.inr ⟨r, o, h1, keep r o h2, h3⟩
    · cases hnew
      rcases hcase with ⟨e, _⟩ | ⟨o1, e, eg, hc⟩
      · exact ⟨_, e, Or.inl rfl⟩
      · refine ⟨_, e, Or.inr ⟨_, o1, rfl, ?_, hc⟩⟩
        rw [eg]
        simp
  · intro k1 k2 h1 h2 r hg1 hg2 hr1 hr2
    rcases World.get_push_some env' (some hn) hg1 with ⟨_, ho1⟩ | ⟨e1, hn1⟩ <;>
      rcases World.get_push_some env' (some hn) hg2 with ⟨_, ho2⟩ | ⟨e2, hn2⟩
    · exact hw.inj k1 k2 h1 h2 r ho1 ho2 hr1 hr2
    · cases hn2
      exact absurd (newref r hr2) (oldref k1 h1 r ho1 hr1)
    · cases hn1
      exact absurd (newref r hr1) (oldref k2 h2 r ho2 hr2)
    · rw [e1, e2]
  · intro r o hl
    have hr := getElem?_some_lt hl
    rcases hcase with ⟨_, eg⟩ | ⟨o1, e, eg, _⟩
    · rw [eg] at hl
      obtain ⟨k, hk, hgk, hrk⟩ := hw.owned r o hl
      exact ⟨k, hk, by rw [World.get_push_lt (World.get_lt hgk)]; exact hgk, hrk⟩
    · rw [eg] at hl hr
      simp at hr
      rcases Nat.lt_or_ge r w.env.globals.length with h1 | h1
      · rw [List.getElem?_append_left h1] at hl
        obtain ⟨k, hk, hgk, hrk⟩ := hw.owned r o hl
        exact ⟨k, hk, by rw [World.get_push_lt (World.get_lt hgk)]; exact hgk, hrk⟩
      · have : r = w.env.globals.length := by omega
        subst this
        exact ⟨w.objects.length, hn, World.get_push_self w env' (some hn),
          AdResult.ref_of_internal e⟩

/-- An accessor that touches only the caches of one object keeps the store
well-formed. -/
theorem WF.touch {cls : AdError} {w : World} (hw : WF cls st w) {i : Nat} {h : AdResult}
    (hi : w.get i = some h) (h1 : AdResult) (env1 : JNIEnv)
    (hg : env1.globals = w.env.globals) (hint : h1.internal_ = h.internal_)
    (hco : ∀ o, Coherent cls st o h → w.env.resolve h.ref = some o → Coherent cls st o h1) :
    WF cls st ({ env := env1, objects := w.objects.set i (some h1) }) := by
  have href : h1.ref = h.ref := by simp [AdResult.ref, hint]
  apply hw.replace hi
  · intro r o hl _
    rw [hg]; exact hl
  · intro r o hl
    rw [hg] at hl
    by_cases hr : h.ref = .globalRef r
    · exact Or.inr ⟨h1, rfl, by rw [href]; exact hr⟩
    · exact Or.inl ⟨hl, hr⟩
  · intro h' e
    cases e
    obtain ⟨x, hx1, hx2⟩ := hw.valid i h hi
    refine ⟨x, by rw [hint]; exact hx1, ?_⟩
    rcases hx2 with h0 | ⟨r, o, e1, e2, e3⟩
    · exact Or.inl h0
    · refine Or.inr ⟨r, o, e1, by rw [hg]; exact e2, ?_, ?_⟩
      · apply hco o e3
        rw [AdResult.ref_of_internal hx1, e1]
        simp [JNIEnv.resolve, e2]
      · intro _ _
        rw [AdResult.ref_of_internal hx1, e1]

/-! ## The accessors on one object -/

theorem JNIEnv.resolve_ne_null {env : JNIEnv} {j : jobject} {o : Nat}
    (h : env.resolve j = some o) : j ≠ .null := by
  intro e
  rw [e] at h
  simp [JNIEnv.resolve] at h

theorem JNIEnv.resolve_global {env : JNIEnv} {r o : Nat}
    (h : env.globals[r]? = some (o, true)) : env.resolve (.globalRef r) = some o := by
  simp [JNIEnv.resolve, h]

theorem JNIEnv.resolve_calls (env : JNIEnv) (c : List (Method × Nat)) (j : jobject) :
    JNIEnv.resolve { env with calls := c } j = env.resolve j := by
  cases j <;> rfl

theorem JNIEnv.CallIntMethod_getCode (cls : AdError) (env : JNIEnv) {j : jobject} {o : Nat}
    (h : env.resolve j = some o) :
    env.CallIntMethod cls j .kGetCode =
      some (cls.getCode o, { env with calls := env.calls ++ [(.kGetCode, o)] }) := by
  simp [JNIEnv.CallIntMethod, JNIEnv.invoke, h]

theorem JNIEnv.CallStringMethod_getDomain (cls : AdError) (env : JNIEnv) {j : jobject}
    {o : Nat} (h : env.resolve j = some o) :
    env.CallStringMethod cls j .kGetDomain =
      some (cls.getDomain o, { env with calls := env.calls ++ [(.kGetDomain, o)] }) := by
  simp [JNIEnv.CallStringMethod, JNIEnv.invoke, h]

theorem JNIEnv.CallStringMethod_getMessage (cls : AdError) (env : JNIEnv) {j : jobject}
    {o : Nat} (h : env.resolve j = some o) :
    env.CallStringMethod cls j .kGetMessage =
      some (cls.getMessage o, { env with calls := env.calls ++ [(.kGetMessage, o)] }) := by
  simp [JNIEnv.CallStringMethod, JNIEnv.invoke, h]

theorem JNIEnv.CallStringMethod_toString (cls : AdError) (env : JNIEnv) {j : jobject}
    {o : Nat} (h : env.resolve j = some o) :
    env.CallStringMethod cls j .kToString =
      some (cls.toString o, { env with calls := env.calls ++ [(.kToString, o)] }) := by
  simp [JNIEnv.CallStringMethod, JNIEnv.invoke, h]

theorem AdResult.code_null (cls : AdError) (env : JNIEnv) {h : AdResult}
    {x : AdResultInternal} (hx : h.internal_ = some x) (h0 : x.j_ad_error = .null) :
    h.code cls env = some (0, h, env) := by
  simp [AdResult.code, hx, h0]

theorem AdResult.code_cached (cls : AdError) (env : JNIEnv) {h : AdResult}
    {x : AdResultInternal} (hx : h.internal_ = some x) (h0 : x.j_ad_error ≠ .null)
    (hc : h.code_ ≠ 0) : h.code cls env = some (h.code_, h, env) := by
  simp [AdResult.code, hx, h0, hc]

theorem AdResult.code_fetch (cls : AdError) (env : JNIEnv) {h : AdResult}
    {x : AdResultInternal} {o : Nat} (hx : h.internal_ = some x)
    (hres : env.resolve x.j_ad_error = some o) (hc : h.code_ = 0) :
    h.code cls env = some (cls.getCode o, { h with code_ := cls.getCode o },
      { env with calls := env.calls ++ [(.kGetCode, o)] }) := by
  simp [AdResult.code, hx, JNIEnv.resolve_ne_null hres, hc,
    JNIEnv.CallIntMethod_getCode cls env hres]

theorem AdResult.domain_null (cls : AdError) (env : JNIEnv) {h : AdResult}
    {x : AdResultInternal} (hx : h.internal_ = some x) (h0 : x.j_ad_error = .null) :
    h.domain cls env = some (.dangling, h, env) := by
  simp [AdResult.domain, hx, h0]

theorem AdResult.domain_cached (cls : AdError) (env : JNIEnv) {h : AdResult}
    {x : AdResultInternal} (hx : h.internal_ = some x) (h0 : x.j_ad_error ≠ .null)
    (hc : h.domain_ ≠ "") : h.domain cls env = some (.valid h.domain_, h, env) := by
  simp [AdResult.domain, hx, h0, hc]

theorem AdResult.domain_fetch (cls : AdError) (env : JNIEnv) {h : AdResult}
    {x : AdResultInternal} {o : Nat} (hx : h.internal_ = some x)
    (hres : env.resolve x.j_ad_error = some o) (hc : h.domain_ = "") :
    h.domain cls env = some (.valid (cls.getDomain o), { h with domain_ := cls.getDomain o },
      { env with calls := env.calls ++ [(.kGetDomain, o)] }) := by
  simp [AdResult.domain, hx, JNIEnv.resolve_ne_null hres, hc,
    JNIEnv.CallStringMethod_getDomain cls env hres]

theorem AdResult.message_null (cls : AdError) (env : JNIEnv) {h : AdResult}
    {x : AdResultInternal} (hx : h.internal_ = some x) (h0 : x.j_ad_error = .null) :
    h.message cls env = some (.dangling, h, env) := by
  simp [AdResult.message, hx, h0]

theorem AdResult.message_cached (cls : AdError) (env : JNIEnv) {h : AdResult}
    {x : AdResultInternal} (hx : h.internal_ = some x) (h0 : x.j_ad_error ≠ .null)
    (hc : h.message_ ≠ "") : h.message cls env = some (.valid h.message_, h, env) := by
  simp [AdResult.message, hx, h0, hc]

theorem AdResult.message_fetch (cls : AdError) (env : JNIEnv) {h : AdResult}
    {x : AdResultInternal} {o : Nat} (hx : h.internal_ = some x)
    (hres : env.resolve x.j_ad_error = some o) (hc : h.message_ = "") :
    h.message cls env = some (.valid (cls.getMessage o), { h with message_ := cls.getMessage o },
      { env with calls := env.calls ++ [(.kGetMessage, o)] }) := by
  simp [AdResult.message, hx, JNIEnv.resolve_ne_null hres, hc,
    JNIEnv.CallStringMethod_getMessage cls env hres]

theorem AdResult.ToString_null (cls : AdError) (env : JNIEnv) {h : AdResult}
    {x : AdResultInternal} (hx : h.internal_ = some x) (h0 : x.j_ad_error = .null) :
    h.ToString cls env = some (.dangling, h, env) := by
  simp [AdResult.ToString, hx, h0]

theorem AdResult.ToString_cached (cls : AdError) (env : JNIEnv) {h : AdResult}
    {x : AdResultInternal} (hx : h.internal_ = some x) (h0 : x.j_ad_error ≠ .null)
    (hc : h.to_string_ ≠ "") : h.ToString cls env = some (.valid h.to_string_, h, env) := by
  simp [AdResult.ToString, hx, h0, hc]

theorem AdResult.ToString_fetch (cls : AdError) (env : JNIEnv) {h : AdResult}
    {x : AdResultInternal} {o : Nat} (hx : h.internal_ = some x)
    (hres : env.resolve x.j_ad_error = some o) (hc : h.to_string_ = "") :
    h.ToString cls env = some (.valid (cls.toString o), { h with to_string_ := cls.toString o },
      { env with calls := env.calls ++ [(.kToString, o)] }) := by
  simp [AdResult.ToString, hx, JNIEnv.resolve_ne_null hres, hc,
    JNIEnv.CallStringMethod_toString cls env hres]

/-- The shape of a handle the accessors can be run on: `internal_` is set and its
reference is null or denotes an object. -/
theorem WF.shape {cls : AdError} {w : World} (hw : WF cls st w) {i : Nat} {h : AdResult}
    (hi : w.get i = some h) :
    ∃ x, h.internal_ = some x ∧ (x.j_ad_error = .null ∨
      ∃ r o, x.j_ad_error = .globalRef r ∧ w.env.globals[r]? = some (o, true) ∧
        w.env.resolve x.j_ad_error = some o ∧ Coherent cls st o h) := by
  obtain ⟨x, hx1, hx2⟩ := hw.valid i h hi
  refine ⟨x, hx1, ?_⟩
  rcases hx2 with h0 | ⟨r, o, e1, e2, e3⟩
  · exact Or.inl h0
  · exact Or.inr ⟨r, o, e1, e2, by rw [e1]; exact JNIEnv.resolve_global e2, e3⟩

theorem AdResult.code_touch (cls : AdError) (env : JNIEnv) {h h1 : AdResult} {v : Int}
    {env1 : JNIEnv} (hc : h.code cls env = some (v, h1, env1)) :
    env1.globals = env.globals ∧ env1.deleted = env.deleted ∧ h1.internal_ = h.internal_ ∧
      h1.domain_ = h.domain_ ∧ h1.message_ = h.message_ ∧ h1.to_string_ = h.to_string_ ∧
      (h.code_ ≠ 0 → h1.code_ = h.code_) ∧
      ∀ o, Coherent cls st o h → env.resolve h.ref = some o → Coherent cls st o h1 := by
  cases hx : h.internal_ with
  | none => simp [AdResult.code, hx] at hc
  | some x =>
    by_cases h0 : x.j_ad_error = .null
    · rw [AdResult.code_null cls env hx h0] at hc
      cases hc
      exact ⟨rfl, rfl, hx, rfl, rfl, rfl, fun _ => rfl, fun _ hco _ => hco⟩
    · by_cases hz : h.code_ = 0
      · cases hr : env.resolve x.j_ad_error with
        | none => simp [AdResult.code, hx, h0, hz, JNIEnv.CallIntMethod, JNIEnv.invoke, hr] at hc
        | some o =>
          rw [AdResult.code_fetch cls env hx hr hz] at hc
          cases hc
          refine ⟨rfl, rfl, hx, rfl, rfl, rfl, fun hne => absurd hz hne, ?_⟩
          intro o2 hco hres
          rw [AdResult.ref_of_internal hx, hr] at hres
          cases hres
          exact ⟨fun _ => rfl, hco.2.1, hco.2.2.1, hco.2.2.2⟩
      · rw [AdResult.code_cached cls env hx h0 hz] at hc
        cases hc
        exact ⟨rfl, rfl, hx, rfl, rfl, rfl, fun _ => rfl, fun _ hco _ => hco⟩

theorem AdResult.domain_touch (cls : AdError) (env : JNIEnv) {h h1 : AdResult} {v : StringRef}
    {env1 : JNIEnv} (hc : h.domain cls env = some (v, h1, env1)) :
    env1.globals = env.globals ∧ env1.deleted = env.deleted ∧ h1.internal_ = h.internal_ ∧
      h1.code_ = h.code_ ∧ h1.message_ = h.message_ ∧ h1.to_string_ = h.to_string_ ∧
      (h.domain_ ≠ "" → h1.domain_ = h.domain_) ∧
      ∀ o, Coherent cls st o h → env.resolve h.ref = some o → Coherent cls st o h1 := by
  cases hx : h.internal_ with
  | none => simp [AdResult.domain, hx] at hc
  | some x =>
    by_cases h0 : x.j_ad_error = .null
    · rw [AdResult.domain_null cls env hx h0] at hc
      cases hc
      exact ⟨rfl, rfl, hx, rfl, rfl, rfl, fun _ => rfl, fun _ hco _ => hco⟩
    · by_cases hz : h.domain_ = ""
      · cases hr : env.resolve x.j_ad_error with
        | none =>
          simp [AdResult.domain, hx, h0, hz, JNIEnv.CallStringMethod, JNIEnv.invoke, hr] at hc
        | some o =>
          rw [AdResult.domain_fetch cls env hx hr hz] at hc
          cases hc
          refine ⟨rfl, rfl, hx, rfl, rfl, rfl, fun hne => absurd hz hne, ?_⟩
          intro o2 hco hres
          rw [AdResult.ref_of_internal hx, hr] at hres
          cases hres
          exact ⟨hco.1, fun _ => rfl, hco.2.2.1, hco.2.2.2⟩
      · rw [AdResult.domain_cached cls env hx h0 hz] at hc
        cases hc
        exact ⟨rfl, rfl, hx, rfl, rfl, rfl, fun _ => rfl, fun _ hco _ => hco⟩

theorem AdResult.message_touch (cls : AdError) (env : JNIEnv) {h h1 : AdResult} {v : StringRef}
    {env1 : JNIEnv} (hc : h.message cls env = some (v, h1, env1)) :
    env1.globals = env.globals ∧ env1.deleted = env.deleted ∧ h1.internal_ = h.internal_ ∧
      h1.code_ = h.code_ ∧ h1.domain_ = h.domain_ ∧ h1.to_string_ = h.to_string_ ∧
      (h.message_ ≠ "" → h1.message_ = h.message_) ∧
      ∀ o, Coherent cls st o h → env.resolve h.ref = some o → Coherent cls st o h1 := by
  cases hx : h.internal_ with
  | none => simp [AdResult.message, hx] at hc
  | some x =>
    by_cases h0 : x.j_ad_error = .null
    · rw [AdResult.message_null cls env hx h0] at hc
      cases hc
      exact ⟨rfl, rfl, hx, rfl, rfl, rfl, fun _ => rfl, fun _ hco _ => hco⟩
    · by_cases hz : h.message_ = ""
      · cases hr : env.resolve x.j_ad_error with
        | none =>
          simp [AdResult.message, hx, h0, hz, JNIEnv.CallStringMethod, JNIEnv.invoke, hr] at hc
        | some o =>
          rw [AdResult.message_fetch cls env hx hr hz] at hc
          cases hc
          refine ⟨rfl, rfl, hx, rfl, rfl, rfl, fun hne => absurd hz hne, ?_⟩
          intro o2 hco hres
          rw [AdResult.ref_of_internal hx, hr] at hres
          cases hres
          exact ⟨hco.1, hco.2.1, fun _ => rfl, hco.2.2.2⟩
      · rw [AdResult.message_cached cls env hx h0 hz] at hc
        cases hc
        exact ⟨rfl, rfl, hx, rfl, rfl, rfl, fun _ => rfl, fun _ hco _ => hco⟩

theorem AdResult.ToString_touch (cls : AdError) (env : JNIEnv) {h h1 : AdResult} {v : StringRef}
    {env1 : JNIEnv} (hc : h.ToString cls env = some (v, h1, env1)) :
    env1.globals = env.globals ∧ env1.deleted = env.deleted ∧ h1.internal_ = h.internal_ ∧
      h1.code_ = h.code_ ∧ h1.domain_ = h.domain_ ∧ h1.message_ = h.message_ ∧
      (h.to_string_ ≠ "" → h1.to_string_ = h.to_string_) ∧
      ∀ o, Coherent cls st o h → env.resolve h.ref = some o → Coherent cls st o h1 := by
  cases hx : h.internal_ with
  | none => simp [AdResult.ToString, hx] at hc
  | some x =>
    by_cases h0 : x.j_ad_error = .null
    · rw [AdResult.ToString_null cls env hx h0] at hc
      cases hc
      exact ⟨rfl, rfl, hx, rfl, rfl, rfl, fun _ => rfl, fun _ hco _ => hco⟩
    · by_cases hz : h.to_string_ = ""
      · cases hr : env.resolve x.j_ad_error with
        | none =>
          simp [AdResult.ToString, hx, h0, hz, JNIEnv.CallStringMethod, JNIEnv.invoke, hr] at hc
        | some o =>
          rw [AdResult.ToString_fetch cls env hx hr hz] at hc
          cases hc
          refine ⟨rfl, rfl, hx, rfl, rfl, rfl, fun hne => absurd hz hne, ?_⟩
          intro o2 hco hres
          rw [AdResult.ref_of_internal hx, hr] at hres
          cases hres
          exact ⟨hco.1, hco.2.1, hco.2.2.1, fun _ _ => rfl⟩
      · rw [AdResult.ToString_cached cls env hx h0 hz] at hc
        cases hc
        exact ⟨rfl, rfl, hx, rfl, rfl, rfl, fun _ => rfl, fun _ hco _ => hco⟩

/-! ## Each operation keeps the store well-formed -/

theorem WF.code_step {cls : AdError} {w w1 : World} (hw : WF cls st w) {i : Nat} {v : Int}
    (hs : w.code cls i = some (v, w1)) : WF cls st w1 := by
  unfold World.code at hs
  cases hi : w.get i with
  | none => simp [hi] at hs
  | some h =>
    simp only [hi] at hs
    cases hc : h.code cls w.env with
    | none => simp [hc] at hs
    | some res =>
      obtain ⟨v1, h1, env1⟩ := res
      simp only [hc, Option.some.injEq, Prod.mk.injEq] at hs
      obtain ⟨-, rfl⟩ := hs
      obtain ⟨e1, -, e3, -, -, -, -, e8⟩ := AdResult.code_touch cls w.env hc
      exact hw.touch hi h1 env1 e1 e3 e8

theorem WF.domain_step {cls : AdError} {w w1 : World} (hw : WF cls st w) {i : Nat} {v : StringRef}
    (hs : w.domain cls i = some (v, w1)) : WF cls st w1 := by
  unfold World.domain at hs
  cases hi : w.get i with
  | none => simp [hi] at hs
  | some h =>
    simp only [hi] at hs
    cases hc : h.domain cls w.env with
    | none => simp [hc] at hs
    | some res =>
      obtain ⟨v1, h1, env1⟩ := res
      simp only [hc, Option.some.injEq, Prod.mk.injEq] at hs
      obtain ⟨-, rfl⟩ := hs
      obtain ⟨e1, -, e3, -, -, -, -, e8⟩ := AdResult.domain_touch cls w.env hc
      exact hw.touch hi h1 env1 e1 e3 e8

theorem WF.message_step {cls : AdError} {w w1 : World} (hw : WF cls st w) {i : Nat} {v : StringRef}
    (hs : w.message cls i = some (v, w1)) : WF cls st w1 := by
  unfold World.message at hs
  cases hi : w.get i with
  | none => simp [hi] at hs
  | some h =>
    simp only [hi] at hs
    cases hc : h.message cls w.env with
    | none => simp [hc] at hs
    | some res =>
      obtain ⟨v1, h1, env1⟩ := res
      simp only [hc, Option.some.injEq, Prod.mk.injEq] at hs
      obtain ⟨-, rfl⟩ := hs
      obtain ⟨e1, -, e3, -, -, -, -, e8⟩ := AdResult.message_touch cls w.env hc
      exact hw.touch hi h1 env1 e1 e3 e8

theorem WF.ToString_step {cls : AdError} {w w1 : World} (hw : WF cls st w) {i : Nat} {v : StringRef}
    (hs : w.ToString cls i = some (v, w1)) : WF cls st w1 := by
  unfold World.ToString at hs
  cases hi : w.get i with
  | none => simp [hi] at hs
  | some h =>
    simp only [hi] at hs
    cases hc : h.ToString cls w.env with
    | none => simp [hc] at hs
    | some res =>
      obtain ⟨v1, h1, env1⟩ := res
      simp only [hc, Option.some.injEq, Prod.mk.injEq] at hs
      obtain ⟨-, rfl⟩ := hs
      obtain ⟨e1, -, e3, -, -, -, -, e8⟩ := AdResult.ToString_touch cls w.env hc
      exact hw.touch hi h1 env1 e1 e3 e8


theorem World.operatorAssign_ne {w : World} {this other : Nat} {s d : AdResult}
    {xs xd : AdResultInternal} {g : jobject} {env2 env3 : JNIEnv}
    (hne : this ≠ other) (hs : w.get other = some s) (hd : w.get this = some d)
    (hsx : s.internal_ = some xs) (hdx : d.internal_ = some xd)
    (hnew : w.env.NewGlobalRef xs.j_ad_error = some (g, env2))
    (hdel : env2.DeleteGlobalRef xd.j_ad_error = some env3) :
    w.operatorAssign this other = some
      { env := env3
        objects := w.objects.set this (some
          { internal_ := some { j_ad_error := g }, code_ := s.code_, domain_ := s.domain_,
            message_ := s.message_, to_string_ := s.to_string_ }) } := by
  have hlt := World.get_lt hd
  have hne2 : other ≠ this := Ne.symm hne
  simp [World.operatorAssign, hs, hd, hsx, hdx, World.update, World.put, World.get_mk,
    World.get_set_ne, List.getElem?_set_ne hne, List.getElem?_set_self hlt, hnew, hdel,
    AdResultInternal.fresh]
  have hs2 : (w.objects[other]?.bind fun a => a) = some s := by
    simpa [World.get] using hs
  simp [hs2, hsx, hnew, hdel]

theorem World.operatorAssign_self {w : World} {a : Nat} {d : AdResult}
    {xd : AdResultInternal} {env3 : JNIEnv}
    (hd : w.get a = some d) (hdx : d.internal_ = some xd)
    (hdel : w.env.DeleteGlobalRef xd.j_ad_error = some env3) :
    w.operatorAssign a a = some
      { env := env3
        objects := w.objects.set a (some { d with internal_ := some { j_ad_error := .null } }) } := by
  have hlt := World.get_lt hd
  simp [World.operatorAssign, hd, hdx, World.update, World.put, World.get_mk,
    List.getElem?_set_self hlt, hdel, AdResultInternal.fresh, JNIEnv.NewGlobalRef]


theorem JNIEnv.NewGlobalRef_null (env : JNIEnv) :
    env.NewGlobalRef .null = some (.null, env) := by
  simp [JNIEnv.NewGlobalRef]

theorem JNIEnv.NewGlobalRef_live (env : JNIEnv) {j : jobject} {o : Nat}
    (h : env.resolve j = some o) :
    env.NewGlobalRef j = some (.globalRef env.globals.length,
      { env with globals := env.globals ++ [(o, true)] }) := by
  simp [JNIEnv.NewGlobalRef, JNIEnv.resolve_ne_null h, h]

theorem JNIEnv.DeleteGlobalRef_null (env : JNIEnv) :
    env.DeleteGlobalRef .null = some { env with deleted := env.deleted ++ [.null] } := rfl

theorem JNIEnv.DeleteGlobalRef_live (env : JNIEnv) {r o : Nat}
    (h : env.globals[r]? = some (o, true)) :
    env.DeleteGlobalRef (.globalRef r) = some
      { env with globals := env.globals.set r (o, false),
                 deleted := env.deleted ++ [.globalRef r] } := by
  simp [JNIEnv.DeleteGlobalRef, h]

/-- The reference table after releasing the live reference `r`. -/
theorem getElem?_release {G : List (Nat × Bool)} {r o : Nat} (hl : G[r]? = some (o, true))
    (r' o' : Nat) :
    (G.set r (o, false))[r']? = some (o', true) ↔ (G[r']? = some (o', true) ∧ r' ≠ r) := by
  have hlt := getElem?_some_lt hl
  by_cases e : r = r'
  · subst e
    simp [List.getElem?_set_self hlt]
  · rw [List.getElem?_set_ne e]
    constructor
    · intro h; exact ⟨h, fun h2 => e h2.symm⟩
    · intro h; exact h.1

theorem getElem?_release_self {G : List (Nat × Bool)} {r o : Nat}
    (hl : G[r]? = some (o, true)) : (G.set r (o, false))[r]? = some (o, false) := by
  simp [List.getElem?_set_self (getElem?_some_lt hl)]

theorem dead_release {G : List (Nat × Bool)} {rd od r o : Nat}
    (hl : G[rd]? = some (od, true)) (hd : G[r]? = some (o, false)) :
    (G.set rd (od, false))[r]? = some (o, false) := by
  have hne : rd ≠ r := by
    intro e
    subst e
    rw [hl] at hd
    cases hd
  rw [List.getElem?_set_ne hne]
  exact hd

theorem dead_acquire {G : List (Nat × Bool)} {r o : Nat} (a : Nat × Bool)
    (hd : G[r]? = some (o, false)) : (G ++ [a])[r]? = some (o, false) := by
  rw [List.getElem?_append_left (getElem?_some_lt hd)]
  exact hd

/-- The reference table after creating a reference to `o`. -/
theorem getElem?_acquire (G : List (Nat × Bool)) (o r' o' : Nat) :
    (G ++ [(o, true)])[r']? = some (o', true) ↔
      (G[r']? = some (o', true) ∨ (r' = G.length ∧ o' = o)) := by
  rcases Nat.lt_trichotomy r' G.length with h | h | h
  · rw [List.getElem?_append_left h]
    constructor
    · intro h1; exact Or.inl h1
    · rintro (h1 | ⟨h1, _⟩)
      · exact h1
      · omega
  · subst h
    simp
    constructor
    · intro h1; exact h1.symm
    · intro h1; exact h1.symm
  · rw [List.getElem?_eq_none (by simp; omega), List.getElem?_eq_none (by omega)]
    simp
    omega


theorem WF.destroy_ok {cls : AdError} {w : World} (hw : WF cls st w) {i : Nat} {h : AdResult}
    (hi : w.get i = some h) :
    ∃ w1, w.destroy i = some w1 ∧ WF cls st w1 ∧ w1.objects = w.objects.set i none ∧
      (h.ref = .null → w1.env = w.env) ∧
      (∀ r, h.ref = .globalRef r → ∃ o, w.env.globals[r]? = some (o, true) ∧
        w1.env = { w.env with globals := w.env.globals.set r (o, false),
                              deleted := w.env.deleted ++ [.globalRef r] }) := by
  obtain ⟨x, hx, hsh⟩ := hw.shape hi
  have href := AdResult.ref_of_internal hx
  rcases hsh with h0 | ⟨r, o, e1, e2, -, -⟩
  · refine ⟨{ env := w.env, objects := w.objects.set i none }, ?_, ?_, rfl, fun _ => rfl, ?_⟩
    · simp [World.destroy, hi, AdResult.destructor, hx, h0]
    · apply hw.replace hi
      · intro r o hl _; exact hl
      · intro r o hl
        exact Or.inl ⟨hl, by rw [href, h0]; simp⟩
      · intro h' e; cases e
    · intro r hr
      rw [href, h0] at hr
      cases hr
  · refine ⟨{ env := { w.env with globals := w.env.globals.set r (o, false),
                                  deleted := w.env.deleted ++ [.globalRef r] },
              objects := w.objects.set i none }, ?_, ?_, rfl, ?_, ?_⟩
    · simp [World.destroy, hi, AdResult.destructor, hx, e1, JNIEnv.DeleteGlobalRef_live w.env e2]
    · apply hw.replace hi
      · intro r' o' hl hne
        apply (getElem?_release e2 r' o').2
        refine ⟨hl, ?_⟩
        intro e
        apply hne
        rw [href, e1, e]
      · intro r' o' hl
        obtain ⟨h1, h2⟩ := (getElem?_release e2 r' o').1 hl
        refine Or.inl ⟨h1, ?_⟩
        rw [href, e1]
        intro e
        cases e
        exact h2 rfl
      · intro h' e; cases e
    · intro hr
      rw [href, e1] at hr
      cases hr
    · intro r' hr
      rw [href, e1] at hr
      cases hr
      exact ⟨o, e2, rfl⟩

theorem WF.construct_ok {cls : AdError} {w : World} (hw : WF cls st w) (a : Option Nat) :
    ∃ h env1, w.construct { j_ad_error := argRef a } =
        some (w.objects.length, { env := env1, objects := w.objects ++ [some h] }) ∧
      WF cls st ({ env := env1, objects := w.objects ++ [some h] }) ∧
      h.code_ = 0 ∧ h.domain_ = "" ∧ h.message_ = "" ∧ h.to_string_ = "" ∧
      env1.calls = w.env.calls ∧ env1.deleted = w.env.deleted ∧
      (a = none → h.internal_ = some { j_ad_error := .null } ∧ env1 = w.env) ∧
      (∀ o, a = some o → h.internal_ = some { j_ad_error := .globalRef w.env.globals.length } ∧
        env1.globals = w.env.globals ++ [(o, true)]) := by
  cases a with
  | none =>
    refine ⟨{ internal_ := some { j_ad_error := .null }, code_ := 0, domain_ := "",
              message_ := "", to_string_ := "" }, w.env, ?_, ?_, rfl, rfl, rfl, rfl, rfl, rfl,
              fun _ => ⟨rfl, rfl⟩, ?_⟩
    · simp [World.construct, AdResult.construct, argRef, JNIEnv.NewGlobalRef_null]
    · exact hw.push _ _ (Or.inl ⟨rfl, rfl⟩)
    · intro o e; cases e
  | some o =>
    have hres : w.env.resolve (.localRef o) = some o := rfl
    refine ⟨{ internal_ := some { j_ad_error := .globalRef w.env.globals.length }, code_ := 0,
              domain_ := "", message_ := "", to_string_ := "" },
            { w.env with globals := w.env.globals ++ [(o, true)] }, ?_, ?_, rfl, rfl, rfl, rfl,
            rfl, rfl, ?_, ?_⟩
    · simp [World.construct, AdResult.construct, argRef, JNIEnv.NewGlobalRef_live w.env hres]
    · apply hw.push _ _ (Or.inr ⟨o, rfl, rfl, ?_⟩)
      simp [Coherent]
    · intro e; cases e
    · intro o' e; cases e; exact ⟨rfl, rfl⟩

theorem WF.GetCause_ok {cls : AdError} {w : World} (hw : WF cls st w) {i : Nat} {h : AdResult}
    (hi : w.get i = some h) :
    (h.ref = .null → w.GetCause cls i = some (none, w)) ∧
    (∀ r o, h.ref = .globalRef r → w.env.globals[r]? = some (o, true) →
      ∃ c env1, w.GetCause cls i =
          some (some w.objects.length, { env := env1, objects := w.objects ++ [some c] }) ∧
        WF cls st ({ env := env1, objects := w.objects ++ [some c] }) ∧
        c.code_ = 0 ∧ c.domain_ = "" ∧ c.message_ = "" ∧ c.to_string_ = "" ∧
        env1.calls = w.env.calls ++ [(.kGetCause, o)] ∧ env1.deleted = w.env.deleted ∧
        (cls.getCause o = none → c.internal_ = some { j_ad_error := .null } ∧
          env1.globals = w.env.globals) ∧
        (∀ a, cls.getCause o = some a →
          c.internal_ = some { j_ad_error := .globalRef w.env.globals.length } ∧
          env1.globals = w.env.globals ++ [(a, true)])) := by
  obtain ⟨x, hx, -⟩ := hw.shape hi
  have href := AdResult.ref_of_internal hx
  constructor
  · intro h0
    rw [href] at h0
    simp [World.GetCause, hi, AdResult.GetCause, hx, h0]
  · intro r o hr hl
    rw [href] at hr
    have hres : w.env.resolve x.j_ad_error = some o := by
      rw [hr]; exact JNIEnv.resolve_global hl
    cases hc : cls.getCause o with
    | none =>
      refine ⟨{ internal_ := some { j_ad_error := .null }, code_ := 0, domain_ := "",
                message_ := "", to_string_ := "" },
              { w.env with calls := w.env.calls ++ [(.kGetCause, o)] }, ?_, ?_, rfl, rfl, rfl,
              rfl, rfl, rfl, fun _ => ⟨rfl, rfl⟩, ?_⟩
      · simp [World.GetCause, hi, AdResult.GetCause, hx, JNIEnv.resolve_ne_null hres,
          JNIEnv.CallObjectMethod, JNIEnv.invoke, hres, hc, AdResult.construct,
          JNIEnv.NewGlobalRef_null]
      · exact hw.push _ _ (Or.inl ⟨rfl, rfl⟩)
      · intro a e; cases e
    | some a =>
      refine ⟨{ internal_ := some { j_ad_error := .globalRef w.env.globals.length },
                code_ := 0, domain_ := "", message_ := "", to_string_ := "" },
              { w.env with calls := w.env.calls ++ [(.kGetCause, o)],
                           globals := w.env.globals ++ [(a, true)] }, ?_, ?_, rfl, rfl, rfl,
              rfl, rfl, rfl, ?_, ?_⟩
      · have hres2 : JNIEnv.resolve { w.env with calls := w.env.calls ++ [(.kGetCause, o)] }
            (.localRef a) = some a := rfl
        simp [World.GetCause, hi, AdResult.GetCause, hx, JNIEnv.resolve_ne_null hres,
          JNIEnv.CallObjectMethod, JNIEnv.invoke, hres, hc, AdResult.construct,
          JNIEnv.NewGlobalRef_live _ hres2]
      · apply hw.push _ _ (Or.inr ⟨a, rfl, rfl, ?_⟩)
        simp [Coherent]
      · intro e; cases e
      · intro a' e; cases e; exact ⟨rfl, rfl⟩


theorem WF.resolve_ref {cls : AdError} {w : World} (hw : WF cls st w) {i : Nat} {h : AdResult}
    (hi : w.get i = some h) {o : Nat} (hres : w.env.resolve h.ref = some o) :
    ∃ r, h.ref = .globalRef r ∧ w.env.globals[r]? = some (o, true) ∧ Coherent cls st o h := by
  obtain ⟨x, hx, hsh⟩ := hw.shape hi
  have href := AdResult.ref_of_internal hx
  rcases hsh with h0 | ⟨r, o1, e1, e2, e3, e4⟩
  · rw [href, h0] at hres
    cases hres
  · rw [href] at hres ⊢
    rw [e3] at hres
    cases hres
    exact ⟨r, e1, e2, e4⟩

/-- The last step of `operator=` between two different objects: the destination ends
with the reference `g` and the caches of the source. -/
theorem WF.assign_aux {cls : AdError} {w : World} (hw : WF cls st w) {this other : Nat}
    {d s : AdResult} (hd : w.get this = some d) (hs : w.get other = some s)
    (g : jobject) (env3 : JNIEnv)
    (hG : ∀ r' o', env3.globals[r']? = some (o', true) ↔
      ((w.env.globals[r']? = some (o', true) ∧ d.ref ≠ .globalRef r') ∨
       (g = .globalRef r' ∧ r' = w.env.globals.length ∧ w.env.resolve s.ref = some o')))
    (hg : g = .null ∨ (g = .globalRef w.env.globals.length ∧ ∃ o, w.env.resolve s.ref = some o)) :
    WF cls st
      { env := env3
        objects := w.objects.set this (some
          { internal_ := some { j_ad_error := g }, code_ := s.code_, domain_ := s.domain_,
            message_ := s.message_, to_string_ := s.to_string_ }) } := by
  apply hw.replace hd
  · intro r o hl hne
    exact (hG r o).2 (Or.inl ⟨hl, hne⟩)
  · intro r o hl
    rcases (hG r o).1 hl with h1 | ⟨h1, _, _⟩
    · exact Or.inl h1
    · exact Or.inr ⟨_, rfl, by simp [AdResult.ref, h1]⟩
  · intro h' e
    cases e
    refine ⟨_, rfl, ?_⟩
    rcases hg with h0 | ⟨h1, o, hres⟩
    · exact Or.inl h0
    · obtain ⟨rs, -, -, hco⟩ := hw.resolve_ref hs hres
      refine Or.inr ⟨_, o, h1, (hG _ o).2 (Or.inr ⟨h1, rfl, hres⟩), hco, ?_⟩
      intro o2 hl
      have := getElem?_some_lt hl
      omega

theorem WF.operatorAssign_ok {cls : AdError} {w : World} (hw : WF cls st w) {this other : Nat}
    {d s : AdResult} (hd : w.get this = some d) (hs : w.get other = some s) :
    ∃ w1, w.operatorAssign this other = some w1 ∧ WF cls st w1 ∧
      w1.env.calls = w.env.calls ∧ w1.env.deleted = w.env.deleted ++ [d.ref] ∧
      (∀ r, d.ref = .globalRef r → ∃ o, w1.env.globals[r]? = some (o, false)) ∧
      (∀ (r : Nat) o, w.env.globals[r]? = some (o, false) →
        w1.env.globals[r]? = some (o, false)) ∧
      (this = other → w1.objects =
        w.objects.set this (some { d with internal_ := some { j_ad_error := .null } })) ∧
      (this ≠ other → ∃ g, w1.objects = w.objects.set this (some
          { internal_ := some { j_ad_error := g }, code_ := s.code_, domain_ := s.domain_,
            message_ := s.message_, to_string_ := s.to_string_ }) ∧
        (s.ref = .null → g = .null) ∧
        (∀ r o, s.ref = .globalRef r → w.env.globals[r]? = some (o, true) →
          g = .globalRef w.env.globals.length ∧
          w1.env.globals[w.env.globals.length]? = some (o, true) ∧
          w1.env.globals[r]? = some (o, true))) := by
  obtain ⟨xd, hxd, hshd⟩ := hw.shape hd
  have hrefd := AdResult.ref_of_internal hxd
  by_cases hto : this = other
  · subst hto
    rw [hd] at hs
    cases hs
    rcases hshd with h0 | ⟨r, o, e1, e2, -, -⟩
    · have hA := World.operatorAssign_self hd hxd (by rw [h0]; exact JNIEnv.DeleteGlobalRef_null _)
      refine ⟨_, hA,
        ?_, rfl, by rw [hrefd, h0], ?_,
        fun _ _ hdd => hdd,
        fun _ => rfl, fun hne => absurd rfl hne⟩
      · apply hw.replace hd
        · intro r o hl _; exact hl
        · intro r o hl
          exact Or.inl ⟨hl, by rw [hrefd, h0]; simp⟩
        · intro h' e; cases e
          exact ⟨_, rfl, Or.inl rfl⟩
      · intro r hr
        rw [hrefd, h0] at hr
        cases hr
    · have hA := World.operatorAssign_self hd hxd
          (by rw [e1]; exact JNIEnv.DeleteGlobalRef_live _ e2)
      refine ⟨_, hA,
        ?_, rfl, by rw [hrefd, e1], ?_,
        fun _ _ hdd => dead_release e2 hdd,
        fun _ => rfl, fun hne => absurd rfl hne⟩
      · apply hw.replace hd
        · intro r' o' hl hne
          apply (getElem?_release e2 r' o').2
          refine ⟨hl, ?_⟩
          intro e
          apply hne
          rw [hrefd, e1, e]
        · intro r' o' hl
          obtain ⟨h1, h2⟩ := (getElem?_release e2 r' o').1 hl
          refine Or.inl ⟨h1, ?_⟩
          rw [hrefd, e1]
          intro e
          cases e
          exact h2 rfl
        · intro h' e; cases e
          exact ⟨_, rfl, Or.inl rfl⟩
      · intro r' hr
        rw [hrefd, e1] at hr
        cases hr
        exact ⟨o, getElem?_release_self e2⟩
  · obtain ⟨xs, hxs, hshs⟩ := hw.shape hs
    have hrefs := AdResult.ref_of_internal hxs
    rcases hshs with s0 | ⟨rs, os, s1, s2, s3, -⟩ <;>
      rcases hshd with d0 | ⟨rd, od, d1, d2, -, -⟩
    · -- source null, destination null
      have hA := World.operatorAssign_ne hto hs hd hxs hxd
          (by rw [s0]; exact JNIEnv.NewGlobalRef_null _)
          (by rw [d0]; exact JNIEnv.DeleteGlobalRef_null _)
      refine ⟨_, hA,
        ?_, rfl, by rw [hrefd, d0], ?_,
        fun _ _ hdd => hdd,
        fun e => absurd e hto, fun _ => ⟨.null, rfl, fun _ => rfl, ?_⟩⟩
      · apply hw.assign_aux hd hs .null _ _ (Or.inl rfl)
        intro r' o'
        simp [hrefd, d0]
      · intro r hr
        rw [hrefd, d0] at hr
        cases hr
      · intro r o hr
        rw [hrefs, s0] at hr
        cases hr
    · -- source null, destination live
      have hA := World.operatorAssign_ne hto hs hd hxs hxd
          (by rw [s0]; exact JNIEnv.NewGlobalRef_null _)
          (by rw [d1]; exact JNIEnv.DeleteGlobalRef_live _ d2)
      refine ⟨_, hA,
        ?_, rfl, by rw [hrefd, d1], ?_,
        fun _ _ hdd => dead_release d2 hdd,
        fun e => absurd e hto, fun _ => ⟨.null, rfl, fun _ => rfl, ?_⟩⟩
      · apply hw.assign_aux hd hs .null _ _ (Or.inl rfl)
        intro r' o'
        simp only [getElem?_release d2 r' o', hrefd, d1]
        simp
        intro _
        constructor
        · intro h1 h2; exact h1 h2.symm
        · intro h1 h2; exact h1 h2.symm
      · intro r hr
        rw [hrefd, d1] at hr
        cases hr
        exact ⟨od, getElem?_release_self d2⟩
      · intro r o hr
        rw [hrefs, s0] at hr
        cases hr
    · -- source live, destination null
      have hA := World.operatorAssign_ne hto hs hd hxs hxd
          (JNIEnv.NewGlobalRef_live _ s3)
          (by rw [d0]; exact JNIEnv.DeleteGlobalRef_null _)
      refine ⟨_, hA,
        ?_, rfl, by rw [hrefd, d0], ?_,
        fun _ _ hdd => dead_acquire _ hdd,
        fun e => absurd e hto,
        fun _ => ⟨.globalRef w.env.globals.length, rfl, ?_, ?_⟩⟩
      · apply hw.assign_aux hd hs _ _ _ (Or.inr ⟨rfl, os, by rw [hrefs]; exact s3⟩)
        intro r' o'
        simp only [getElem?_acquire, hrefd, d0, hrefs, s3]
        simp
        constructor
        · rintro (h1 | ⟨h1, h2⟩)
          · exact Or.inl h1
          · exact Or.inr ⟨h1.symm, h1, h2.symm⟩
        · rintro (h1 | ⟨_, h1, h2⟩)
          · exact Or.inl h1
          · exact Or.inr ⟨h1, h2.symm⟩
      · intro r hr
        rw [hrefd, d0] at hr
        cases hr
      · intro hr
        rw [hrefs, s1] at hr
        cases hr
      · intro r o hr hl
        rw [hrefs, s1] at hr
        cases hr
        rw [s2] at hl
        cases hl
        refine ⟨rfl, ?_, ?_⟩
        · exact (getElem?_acquire _ _ _ _).2 (Or.inr ⟨rfl, rfl⟩)
        · exact (getElem?_acquire _ _ _ _).2 (Or.inl s2)
    · -- source live, destination live
      have d2' : (w.env.globals ++ [(os, true)])[rd]? = some (od, true) :=
        (getElem?_acquire _ _ _ _).2 (Or.inl d2)
      have hrr : rs ≠ rd := by
        intro e
        subst e
        exact hto (hw.inj this other d s rs hd hs (by rw [hrefd, d1]) (by rw [hrefs, s1]))
      have hA := World.operatorAssign_ne hto hs hd hxs hxd
          (JNIEnv.NewGlobalRef_live _ s3)
          (by rw [d1]; exact JNIEnv.DeleteGlobalRef_live _ d2')
      refine ⟨_, hA,
        ?_, rfl, by rw [hrefd, d1], ?_,
        fun _ _ hdd => dead_release d2' (dead_acquire _ hdd),
        fun e => absurd e hto,
        fun _ => ⟨.globalRef w.env.globals.length, rfl, ?_, ?_⟩⟩
      · apply hw.assign_aux hd hs _ _ _ (Or.inr ⟨rfl, os, by rw [hrefs]; exact s3⟩)
        intro r' o'
        simp only [getElem?_release d2', getElem?_acquire, hrefd, d1, hrefs, s3]
        have hlen := getElem?_some_lt d2
        simp
        constructor
        · rintro ⟨h1 | ⟨h1, h2⟩, h3⟩
          · exact Or.inl ⟨h1, fun e => h3 e.symm⟩
          · exact Or.inr ⟨h1.symm, h1, h2.symm⟩
        · rintro (⟨h1, h3⟩ | ⟨_, h1, h2⟩)
          · exact ⟨Or.inl h1, fun e => h3 e.symm⟩
          · exact ⟨Or.inr ⟨h1, h2.symm⟩, by omega⟩
      · intro r hr
        rw [hrefd, d1] at hr
        cases hr
        exact ⟨od, getElem?_release_self d2'⟩
      · intro hr
        rw [hrefs, s1] at hr
        cases hr
      · intro r o hr hl
        rw [hrefs, s1] at hr
        cases hr
        rw [s2] at hl
        cases hl
        have hlen := getElem?_some_lt d2
        refine ⟨rfl, ?_, ?_⟩
        · exact (getElem?_release d2' _ _).2
            ⟨(getElem?_acquire _ _ _ _).2 (Or.inr ⟨rfl, rfl⟩), by omega⟩
        · exact (getElem?_release d2' _ _).2 ⟨(getElem?_acquire _ _ _ _).2 (Or.inl s2), hrr⟩


theorem World.operatorAssign_src_none {w : World} {this other : Nat}
    (h : w.get other = none) : w.operatorAssign this other = none := by
  unfold World.operatorAssign
  rw [h]
  rfl

theorem World.operatorAssign_dst_none {w : World} {this other : Nat}
    (h : w.get this = none) : w.operatorAssign this other = none := by
  cases hs : w.get other with
  | none => exact World.operatorAssign_src_none hs
  | some s =>
    unfold World.operatorAssign
    rw [hs, h]
    rfl

theorem WF.set_to_string_ok {cls : AdError} {w : World} (hw : WF cls false w) {i : Nat}
    {h : AdResult} (hi : w.get i = some h) (s : String) :
    WF cls false { env := w.env, objects := w.objects.set i (some (h.set_to_string s)) } := by
  refine hw.touch hi (h.set_to_string s) w.env rfl rfl ?_
  intro o hco _
  exact ⟨hco.1, hco.2.1, hco.2.2.1, fun e => absurd e (by decide)⟩

theorem WF.step {cls : AdError} {w w1 : World} (hw : WF cls st w) {op : Op}
    (hst : st = true → op.isSetter = false)
    (hs : w.step cls op = some w1) : WF cls st w1 := by
  cases op with
  | set_to_string i s =>
    have hf : st = false := by
      cases st with
      | false => rfl
      | true => exact absurd (hst rfl) (by simp [Op.isSetter])
    subst hf
    simp only [World.step, World.set_to_string] at hs
    cases hi : w.get i with
    | none => simp [hi] at hs
    | some h =>
      simp only [hi, Option.some.injEq] at hs
      rw [← hs]
      exact hw.set_to_string_ok hi s
  | construct a =>
    obtain ⟨h, env1, e, hwf, -⟩ := hw.construct_ok a
    simp [World.step, e] at hs
    rw [← hs]; exact hwf
  | assign dst src =>
    simp only [World.step] at hs
    cases hd : w.get dst with
    | none => rw [World.operatorAssign_dst_none hd] at hs; cases hs
    | some d =>
      cases hsrc : w.get src with
      | none => rw [World.operatorAssign_src_none hsrc] at hs; cases hs
      | some s =>
        obtain ⟨w2, e, hwf, -⟩ := hw.operatorAssign_ok hd hsrc
        rw [e] at hs
        cases hs
        exact hwf
  | destroy i =>
    simp only [World.step] at hs
    cases hi : w.get i with
    | none => simp [World.destroy, hi] at hs
    | some h =>
      obtain ⟨w2, e, hwf, -⟩ := hw.destroy_ok hi
      rw [e] at hs
      cases hs
      exact hwf
  | is_successful i =>
    simp only [World.step, Option.map_eq_some'] at hs
    obtain ⟨_, _, e⟩ := hs
    rw [← e]; exact hw
  | GetCause i =>
    simp only [World.step, Option.map_eq_some'] at hs
    obtain ⟨⟨c, w2⟩, e, e2⟩ := hs
    cases e2
    cases hi : w.get i with
    | none => simp [World.GetCause, hi] at e
    | some h =>
      obtain ⟨x, hx, hsh⟩ := hw.shape hi
      have href := AdResult.ref_of_internal hx
      rcases hsh with h0 | ⟨r, o, e1, e2, -, -⟩
      · rw [(hw.GetCause_ok hi).1 (by rw [href, h0])] at e
        cases e
        exact hw
      · obtain ⟨c1, env1, e3, hwf, -⟩ := (hw.GetCause_ok hi).2 r o (by rw [href, e1]) e2
        rw [e3] at e
        cases e
        exact hwf
  | code i =>
    simp only [World.step, Option.map_eq_some'] at hs
    obtain ⟨⟨v, w2⟩, e, e2⟩ := hs
    cases e2
    exact hw.code_step e
  | domain i =>
    simp only [World.step, Option.map_eq_some'] at hs
    obtain ⟨⟨v, w2⟩, e, e2⟩ := hs
    cases e2
    exact hw.domain_step e
  | message i =>
    simp only [World.step, Option.map_eq_some'] at hs
    obtain ⟨⟨v, w2⟩, e, e2⟩ := hs
    cases e2
    exact hw.message_step e
  | ToString i =>
    simp only [World.step, Option.map_eq_some'] at hs
    obtain ⟨⟨v, w2⟩, e, e2⟩ := hs
    cases e2
    exact hw.ToString_step e

theorem WF.run {cls : AdError} {ops : List Op} : ∀ {w w1 : World}, WF cls st w →
    (st = true → ∀ op ∈ ops, op.isSetter = false) →
    w.run cls ops = some w1 → WF cls st w1 := by
  induction ops with
  | nil =>
    intro w w1 hw _ hr
    simp [World.run] at hr
    rw [← hr]; exact hw
  | cons op rest ih =>
    intro w w1 hw hst hr
    simp only [World.run] at hr
    cases hs : w.step cls op with
    | none => simp [hs] at hr
    | some w2 =>
      simp only [hs] at hr
      exact ih (hw.step (fun e => hst e op (List.mem_cons_self op rest)) hs)
        (fun e op1 h1 => hst e op1 (List.mem_cons_of_mem op h1)) hr

/-- Every store reachable from the empty one is well-formed; the display-string
caches are left out of the agreement with the Java objects, since `set_to_string`
may have replaced them. -/
theorem WF.reachable {cls : AdError} {ops : List Op} {w : World}
    (hr : World.init.run cls ops = some w) : WF cls false w :=
  (WF.init cls).run (fun e => absurd e (by decide)) hr

/-- Every store reachable from the empty one without `set_to_string` is well-formed,
display-string caches included. -/
theorem WF.reachable_strict {cls : AdError} {ops : List Op} {w : World}
    (hns : ∀ op ∈ ops, op.isSetter = false)
    (hr : World.init.run cls ops = some w) : WF cls true w :=
  (WF.init cls).run (fun _ => hns) hr

/-- In a well-formed store the outstanding global references to an object are as many
as the live `AdResult`s that hold a reference to it. -/
theorem WF.balanced {cls : AdError} {w : World} (hw : WF cls st w) (o : Nat) :
    outstanding w o = holders w o := by
  unfold outstanding holders
  symm
  apply Finset.card_bij (fun i _ => match (w.get i).map AdResult.ref with
    | some (.globalRef r) => r
    | _ => 0)
  · intro i hi
    simp only [Finset.mem_filter, Finset.mem_range] at hi ⊢
    obtain ⟨-, hb⟩ := hi
    cases hg : w.get i with
    | none => simp [hg] at hb
    | some h =>
      simp only [hg, Option.some_bind] at hb
      obtain ⟨r, hr, hl, -⟩ := hw.resolve_ref hg hb
      simp only [Option.map_some', hr]
      exact ⟨getElem?_some_lt hl, hl⟩
  · intro i hi k hk hik
    simp only [Finset.mem_filter, Finset.mem_range] at hi hk
    obtain ⟨-, hbi⟩ := hi
    obtain ⟨-, hbk⟩ := hk
    cases hgi : w.get i with
    | none => simp [hgi] at hbi
    | some h1 =>
      cases hgk : w.get k with
      | none => simp [hgk] at hbk
      | some h2 =>
        simp only [hgi, hgk, Option.some_bind] at hbi hbk
        obtain ⟨r1, hr1, -, -⟩ := hw.resolve_ref hgi hbi
        obtain ⟨r2, hr2, -, -⟩ := hw.resolve_ref hgk hbk
        simp only [hgi, hgk, Option.map_some', hr1, hr2] at hik
        subst hik
        exact hw.inj i k h1 h2 r1 hgi hgk hr1 hr2
  · intro r hr
    simp only [Finset.mem_filter, Finset.mem_range] at hr
    obtain ⟨-, hl⟩ := hr
    obtain ⟨i, h, hg, href⟩ := hw.owned r o hl
    refine ⟨i, ?_, ?_⟩
    · simp only [Finset.mem_filter, Finset.mem_range]
      refine ⟨World.get_lt hg, ?_⟩
      simp [hg, href, JNIEnv.resolve_global hl]
    · simp [hg, href]


theorem World.code_env {cls : AdError} {w w1 : World} {i : Nat} {v : Int}
    (hs : w.code cls i = some (v, w1)) :
    w1.env.globals = w.env.globals ∧ w1.env.deleted = w.env.deleted := by
  unfold World.code at hs
  cases hi : w.get i with
  | none => simp [hi] at hs
  | some h =>
    simp only [hi] at hs
    cases hc : h.code cls w.env with
    | none => simp [hc] at hs
    | some res =>
      obtain ⟨v1, h1, env1⟩ := res
      simp only [hc, Option.some.injEq, Prod.mk.injEq] at hs
      obtain ⟨-, rfl⟩ := hs
      obtain ⟨e1, e2, -⟩ := @AdResult.code_touch false cls w.env _ _ _ _ hc
      exact ⟨e1, e2⟩

theorem World.domain_env {cls : AdError} {w w1 : World} {i : Nat} {v : StringRef}
    (hs : w.domain cls i = some (v, w1)) :
    w1.env.globals = w.env.globals ∧ w1.env.deleted = w.env.deleted := by
  unfold World.domain at hs
  cases hi : w.get i with
  | none => simp [hi] at hs
  | some h =>
    simp only [hi] at hs
    cases hc : h.domain cls w.env with
    | none => simp [hc] at hs
    | some res =>
      obtain ⟨v1, h1, env1⟩ := res
      simp only [hc, Option.some.injEq, Prod.mk.injEq] at hs
      obtain ⟨-, rfl⟩ := hs
      obtain ⟨e1, e2, -⟩ := @AdResult.domain_touch false cls w.env _ _ _ _ hc
      exact ⟨e1, e2⟩

theorem World.message_env {cls : AdError} {w w1 : World} {i : Nat} {v : StringRef}
    (hs : w.message cls i = some (v, w1)) :
    w1.env.globals = w.env.globals ∧ w1.env.deleted = w.env.deleted := by
  unfold World.message at hs
  cases hi : w.get i with
  | none => simp [hi] at hs
  | some h =>
    simp only [hi] at hs
    cases hc : h.message cls w.env with
    | none => simp [hc] at hs
    | some res =>
      obtain ⟨v1, h1, env1⟩ := res
      simp only [hc, Option.some.injEq, Prod.mk.injEq] at hs
      obtain ⟨-, rfl⟩ := hs
      obtain ⟨e1, e2, -⟩ := @AdResult.message_touch false cls w.env _ _ _ _ hc
      exact ⟨e1, e2⟩

theorem World.ToString_env {cls : AdError} {w w1 : World} {i : Nat} {v : StringRef}
    (hs : w.ToString cls i = some (v, w1)) :
    w1.env.globals = w.env.globals ∧ w1.env.deleted = w.env.deleted := by
  unfold World.ToString at hs
  cases hi : w.get i with
  | none => simp [hi] at hs
  | some h =>
    simp only [hi] at hs
    cases hc : h.ToString cls w.env with
    | none => simp [hc] at hs
    | some res =>
      obtain ⟨v1, h1, env1⟩ := res
      simp only [hc, Option.some.injEq, Prod.mk.injEq] at hs
      obtain ⟨-, rfl⟩ := hs
      obtain ⟨e1, e2, -⟩ := @AdResult.ToString_touch false cls w.env _ _ _ _ hc
      exact ⟨e1, e2⟩

theorem LogOK.log_init : LogOK World.init.env := by
  intro r hr
  simp [World.init] at hr

theorem LogOK.count_zero {env : JNIEnv} (hlog : LogOK env) {r o : Nat}
    (hl : env.globals[r]? = some (o, true)) : env.deleted.count (.globalRef r) = 0 := by
  apply List.count_eq_zero.2
  intro hmem
  obtain ⟨o1, h1⟩ := hlog r hmem
  rw [hl] at h1
  cases h1

theorem LogOK.congr {env env1 : JNIEnv} (hlog : LogOK env)
    (hg : env1.globals = env.globals) (hd : env1.deleted = env.deleted) : LogOK env1 := by
  intro r hr
  rw [hd] at hr
  rw [hg]
  exact hlog r hr

theorem LogOK.acquire {env env1 : JNIEnv} (hlog : LogOK env) (a : Nat × Bool)
    (hg : env1.globals = env.globals ++ [a]) (hd : env1.deleted = env.deleted) :
    LogOK env1 := by
  intro r hr
  rw [hd] at hr
  obtain ⟨o, ho⟩ := hlog r hr
  rw [hg]
  exact ⟨o, dead_acquire a ho⟩

theorem LogOK.log_step {cls : AdError} {w w1 : World} (hw : WF cls st w) (hlog : LogOK w.env)
    {op : Op} (hs : w.step cls op = some w1) : LogOK w1.env := by
  cases op with
  | set_to_string i s =>
    simp only [World.step, World.set_to_string] at hs
    cases hi : w.get i with
    | none => simp [hi] at hs
    | some h =>
      simp only [hi, Option.some.injEq] at hs
      rw [← hs]
      exact hlog
  | construct a =>
    obtain ⟨h, env1, e, -, -, -, -, -, -, hdel, hnone, hsome⟩ := hw.construct_ok a
    simp [World.step, e] at hs
    rw [← hs]
    cases a with
    | none => rw [(hnone rfl).2]; exact hlog
    | some o => exact hlog.acquire _ (hsome o rfl).2 hdel
  | assign dst src =>
    simp only [World.step] at hs
    cases hd : w.get dst with
    | none => rw [World.operatorAssign_dst_none hd] at hs; cases hs
    | some d =>
      cases hsrc : w.get src with
      | none => rw [World.operatorAssign_src_none hsrc] at hs; cases hs
      | some s =>
        obtain ⟨w2, e, -, -, hdel, hdead, hstay, -⟩ := hw.operatorAssign_ok hd hsrc
        rw [e] at hs
        cases hs
        intro r hr
        rw [hdel, List.mem_append, List.mem_singleton] at hr
        rcases hr with hr | hr
        · obtain ⟨o, ho⟩ := hlog r hr
          exact ⟨o, hstay r o ho⟩
        · exact hdead r hr.symm
  | destroy i =>
    simp only [World.step] at hs
    cases hi : w.get i with
    | none => simp [World.destroy, hi] at hs
    | some h =>
      obtain ⟨w2, e, -, -, hnull, hlive⟩ := hw.destroy_ok hi
      rw [e] at hs
      cases hs
      obtain ⟨x, hx, hsh⟩ := hw.shape hi
      have href := AdResult.ref_of_internal hx
      rcases hsh with h0 | ⟨r, o, e1, e2, -, -⟩
      · rw [hnull (by rw [href, h0])]
        exact hlog
      · obtain ⟨o1, hl1, henv⟩ := hlive r (by rw [href, e1])
        rw [henv]
        intro r' hr'
        simp only [List.mem_append, List.mem_singleton] at hr'
        rcases hr' with hr' | hr'
        · obtain ⟨o2, ho2⟩ := hlog r' hr'
          exact ⟨o2, dead_release hl1 ho2⟩
        · cases hr'
          exact ⟨o1, getElem?_release_self hl1⟩
  | is_successful i =>
    simp only [World.step, Option.map_eq_some'] at hs
    obtain ⟨_, _, e⟩ := hs
    rw [← e]; exact hlog
  | GetCause i =>
    simp only [World.step, Option.map_eq_some'] at hs
    obtain ⟨⟨c, w2⟩, e, e2⟩ := hs
    cases e2
    cases hi : w.get i with
    | none => simp [World.GetCause, hi] at e
    | some h =>
      obtain ⟨x, hx, hsh⟩ := hw.shape hi
      have href := AdResult.ref_of_internal hx
      rcases hsh with h0 | ⟨r, o, e1, e2, -, -⟩
      · rw [(hw.GetCause_ok hi).1 (by rw [href, h0])] at e
        cases e
        exact hlog
      · obtain ⟨c1, env1, e3, -, -, -, -, -, -, hdel, hnone, hsome⟩ :=
          (hw.GetCause_ok hi).2 r o (by rw [href, e1]) e2
        rw [e3] at e
        cases e
        cases hca : cls.getCause o with
        | none => exact hlog.congr (hnone hca).2 hdel
        | some a => exact hlog.acquire _ (hsome a hca).2 hdel
  | code i =>
    simp only [World.step, Option.map_eq_some'] at hs
    obtain ⟨⟨v, w2⟩, e, e2⟩ := hs
    cases e2
    exact hlog.congr (World.code_env e).1 (World.code_env e).2
  | domain i =>
    simp only [World.step, Option.map_eq_some'] at hs
    obtain ⟨⟨v, w2⟩, e, e2⟩ := hs
    cases e2
    exact hlog.congr (World.domain_env e).1 (World.domain_env e).2
  | message i =>
    simp only [World.step, Option.map_eq_some'] at hs
    obtain ⟨⟨v, w2⟩, e, e2⟩ := hs
    cases e2
    exact hlog.congr (World.message_env e).1 (World.message_env e).2
  | ToString i =>
    simp only [World.step, Option.map_eq_some'] at hs
    obtain ⟨⟨v, w2⟩, e, e2⟩ := hs
    cases e2
    exact hlog.congr (World.ToString_env e).1 (World.ToString_env e).2

theorem LogOK.log_run {cls : AdError} {ops : List Op} : ∀ {w w1 : World}, WF cls false w →
    LogOK w.env → w.run cls ops = some w1 → LogOK w1.env := by
  induction ops with
  | nil =>
    intro w w1 _ hlog hr
    simp [World.run] at hr
    rw [← hr]; exact hlog
  | cons op rest ih =>
    intro w w1 hw hlog hr
    simp only [World.run] at hr
    cases hs : w.step cls op with
    | none => simp [hs] at hr
    | some w2 =>
      simp only [hs] at hr
      exact ih (hw.step (fun e => absurd e (by decide)) hs) (hlog.log_step hw hs) hr

/-- In every reachable store a live global reference has never been passed to
`DeleteGlobalRef`. -/
theorem LogOK.log_reachable {cls : AdError} {ops : List Op} {w : World}
    (hr : World.init.run cls ops = some w) : LogOK w.env :=
  LogOK.log_init.log_run (@WF.init false cls) hr

theorem count_after_release {l : List jobject} {r : Nat}
    (h0 : l.count (jobject.globalRef r) = 0) :
    (l ++ [jobject.globalRef r]).count (jobject.globalRef r) = 1 := by
  rw [List.count_append, h0, List.count_singleton_self]

/-! ## The claims -/

theorem World.set_self {w : World} {n : Nat} {h : AdResult} (hn : w.get n = some h) :
    ({ env := w.env, objects := w.objects.set n (some h) } : World) = w := by
  have hlt := World.get_lt hn
  have e : w.objects.set n (some h) = w.objects := by
    apply List.ext_getElem?
    intro k
    by_cases hk : n = k
    · subst hk
      rw [List.getElem?_set_self hlt]
      unfold World.get at hn
      cases hv : w.objects[n]? with
      | none => simp [hv] at hn
      | some v =>
        rw [hv] at hn
        simp at hn
        rw [hn]
    · rw [List.getElem?_set_ne hk]
  rw [e]

/-- What every accessor does on an `AdResult` that holds no reference: the store and
the JNI environment are left as they are; `is_successful()` is true, `code()` is 0,
`GetCause()` is the null pointer, and the three string accessors hand back a
reference to a destroyed temporary. -/
theorem World.null_accessors (cls : AdError) {w : World} {n : Nat} {h : AdResult}
    (hn : w.get n = some h) (hx : h.internal_ = some { j_ad_error := .null }) :
    w.is_successful n = some true ∧ w.code cls n = some (0, w) ∧
      w.domain cls n = some (.dangling, w) ∧ w.message cls n = some (.dangling, w) ∧
      w.ToString cls n = some (.dangling, w) ∧ w.GetCause cls n = some (none, w) := by
  have e := World.set_self hn
  refine ⟨?_, ?_, ?_, ?_, ?_, ?_⟩
  · simp [World.is_successful, hn, AdResult.is_successful, hx]
  · simp [World.code, hn, AdResult.code_null cls w.env hx rfl, e]
  · simp [World.domain, hn, AdResult.domain_null cls w.env hx rfl, e]
  · simp [World.message, hn, AdResult.message_null cls w.env hx rfl, e]
  · simp [World.ToString, hn, AdResult.ToString_null cls w.env hx rfl, e]
  · simp [World.GetCause, hn, AdResult.GetCause, hx]

theorem World.null_accessors_run (cls : AdError) {w : World} {n : Nat} {h : AdResult}
    (hn : w.get n = some h) (hx : h.internal_ = some { j_ad_error := .null })
    (accs : List Accessor) : w.run cls (accs.map (Accessor.toOp n)) = some w := by
  obtain ⟨h1, h2, h3, h4, h5, h6⟩ := World.null_accessors cls hn hx
  induction accs with
  | nil => rfl
  | cons a rest ih =>
    have hstep : w.step cls (Accessor.toOp n a) = some w := by
      cases a <;> simp [Accessor.toOp, World.step, h1, h2, h3, h4, h5, h6]
    simp only [List.map_cons, World.run, hstep]
    exact ih

/-- A handle constructed from a null reference, in any store: construction and any
sequence of accessor calls on the handle leave the JNI environment untouched (no Java
method is invoked, no reference created or deleted); on the handle `is_successful()`
returns true, `code()` returns 0 and `GetCause()` returns the null pointer, while
`domain()`, `message()` and `ToString()` return a reference to a destroyed temporary
instead of an empty string. -/
theorem World.null_handle (cls : AdError) (w : World) (accs : List Accessor) :
    ∃ n w0, w.construct { j_ad_error := .null } = some (n, w0) ∧ w0.env = w.env ∧
      w0.run cls (accs.map (Accessor.toOp n)) = some w0 ∧
      w0.is_successful n = some true ∧ w0.code cls n = some (0, w0) ∧
      w0.domain cls n = some (.dangling, w0) ∧ w0.message cls n = some (.dangling, w0) ∧
      w0.ToString cls n = some (.dangling, w0) ∧ w0.GetCause cls n = some (none, w0) := by
  have hc : w.construct { j_ad_error := .null } = some (w.objects.length,
      { env := w.env, objects := w.objects ++ [some
        { internal_ := some { j_ad_error := .null }, code_ := 0, domain_ := "",
          message_ := "", to_string_ := "" }] }) := by
    simp [World.construct, AdResult.construct, JNIEnv.NewGlobalRef_null]
  have hn := World.get_push_self w w.env (some
        { internal_ := some { j_ad_error := .null }, code_ := 0, domain_ := "",
          message_ := "", to_string_ := "" })
  exact ⟨_, _, hc, rfl, World.null_accessors_run cls hn rfl accs,
    World.null_accessors cls hn rfl⟩

/-- C1, the code at the failing input. On a handle constructed from a null reference
`is_successful()` returns true, `code()` returns 0 and `GetCause()` returns the null
pointer, without any Java call; but `domain()`, `message()` and `ToString()` do not
return the empty string: each returns a reference to a temporary `std::string()`
that is destroyed when the function returns. -/
theorem C1_null_handle_strings_dangle :
    (World.init.run sampleAdError [.construct none]).bind
        (fun w => w.is_successful 0) = some true ∧
    ((World.init.run sampleAdError [.construct none]).bind
        (fun w => w.code sampleAdError 0)).map Prod.fst = some 0 ∧
    ((World.init.run sampleAdError [.construct none]).bind
        (fun w => w.GetCause sampleAdError 0)).map Prod.fst = some none ∧
    ((World.init.run sampleAdError [.construct none]).bind
        (fun w => w.domain sampleAdError 0)).map Prod.fst = some .dangling ∧
    ((World.init.run sampleAdError [.construct none]).bind
        (fun w => w.message sampleAdError 0)).map Prod.fst = some .dangling ∧
    ((World.init.run sampleAdError [.construct none]).bind
        (fun w => w.ToString sampleAdError 0)).map Prod.fst = some .dangling ∧
    (World.init.run sampleAdError
        [.construct none, .is_successful 0, .code 0, .GetCause 0, .domain 0, .message 0,
         .ToString 0]).map (fun w => w.env.calls) = some [] := by
  decide

/-- In a well-formed store `code()` on a handle that refers to the object `o` returns
the code of `o`: from the cache when it is populated, otherwise through one call of
`getCode`, whose result is cached. -/
theorem WF.code_value {cls : AdError} {w : World} (hw : WF cls st w) {i : Nat} {h : AdResult}
    {o : Nat} (hi : w.get i = some h) (hres : w.env.resolve h.ref = some o) :
    ∃ env1, w.code cls i = some (cls.getCode o,
        { env := env1, objects := w.objects.set i (some { h with code_ := cls.getCode o }) }) ∧
      (h.code_ ≠ 0 → h.code_ = cls.getCode o ∧ env1 = w.env) ∧
      (h.code_ = 0 → env1 = { w.env with calls := w.env.calls ++ [(.kGetCode, o)] }) := by
  obtain ⟨r, hr, hl, hco⟩ := hw.resolve_ref hi hres
  obtain ⟨x, hx, -⟩ := hw.shape hi
  rw [AdResult.ref_of_internal hx] at hres
  by_cases hz : h.code_ = 0
  · refine ⟨_, ?_, fun hne => absurd hz hne, fun _ => rfl⟩
    simp [World.code, hi, AdResult.code_fetch cls w.env hx hres hz]
  · have hv := hco.1 hz
    refine ⟨w.env, ?_, fun _ => ⟨hv, rfl⟩, fun e => absurd e hz⟩
    simp only [World.code, hi, AdResult.code_cached cls w.env hx (JNIEnv.resolve_ne_null hres) hz]
    rw [← hv]

theorem WF.domain_value {cls : AdError} {w : World} (hw : WF cls st w) {i : Nat} {h : AdResult}
    {o : Nat} (hi : w.get i = some h) (hres : w.env.resolve h.ref = some o) :
    ∃ env1, w.domain cls i = some (.valid (cls.getDomain o),
        { env := env1,
          objects := w.objects.set i (some { h with domain_ := cls.getDomain o }) }) ∧
      (h.domain_ ≠ "" → h.domain_ = cls.getDomain o ∧ env1 = w.env) ∧
      (h.domain_ = "" → env1 = { w.env with calls := w.env.calls ++ [(.kGetDomain, o)] }) := by
  obtain ⟨r, hr, hl, hco⟩ := hw.resolve_ref hi hres
  obtain ⟨x, hx, -⟩ := hw.shape hi
  rw [AdResult.ref_of_internal hx] at hres
  by_cases hz : h.domain_ = ""
  · refine ⟨_, ?_, fun hne => absurd hz hne, fun _ => rfl⟩
    simp [World.domain, hi, AdResult.domain_fetch cls w.env hx hres hz]
  · have hv := hco.2.1 hz
    refine ⟨w.env, ?_, fun _ => ⟨hv, rfl⟩, fun e => absurd e hz⟩
    simp only [World.domain, hi,
      AdResult.domain_cached cls w.env hx (JNIEnv.resolve_ne_null hres) hz]
    rw [← hv]

theorem WF.message_value {cls : AdError} {w : World} (hw : WF cls st w) {i : Nat} {h : AdResult}
    {o : Nat} (hi : w.get i = some h) (hres : w.env.resolve h.ref = some o) :
    ∃ env1, w.message cls i = some (.valid (cls.getMessage o),
        { env := env1,
          objects := w.objects.set i (some { h with message_ := cls.getMessage o }) }) ∧
      (h.message_ ≠ "" → h.message_ = cls.getMessage o ∧ env1 = w.env) ∧
      (h.message_ = "" → env1 = { w.env with calls := w.env.calls ++ [(.kGetMessage, o)] }) := by
  obtain ⟨r, hr, hl, hco⟩ := hw.resolve_ref hi hres
  obtain ⟨x, hx, -⟩ := hw.shape hi
  rw [AdResult.ref_of_internal hx] at hres
  by_cases hz : h.message_ = ""
  · refine ⟨_, ?_, fun hne => absurd hz hne, fun _ => rfl⟩
    simp [World.message, hi, AdResult.message_fetch cls w.env hx hres hz]
  · have hv := hco.2.2.1 hz
    refine ⟨w.env, ?_, fun _ => ⟨hv, rfl⟩, fun e => absurd e hz⟩
    simp only [World.message, hi,
      AdResult.message_cached cls w.env hx (JNIEnv.resolve_ne_null hres) hz]
    rw [← hv]

theorem WF.ToString_value {cls : AdError} {w : World} (hw : WF cls st w) {i : Nat}
    {h : AdResult} {o : Nat} (hi : w.get i = some h)
    (hres : w.env.resolve h.ref = some o) :
    ∃ w1, w.ToString cls i =
      some (.valid (if h.to_string_ = "" then cls.toString o else h.to_string_), w1) := by
  obtain ⟨x, hx, -⟩ := hw.shape hi
  rw [AdResult.ref_of_internal hx] at hres
  by_cases hz : h.to_string_ = ""
  · refine ⟨{ env := { w.env with calls := w.env.calls ++ [(.kToString, o)] },
              objects := w.objects.set i (some { h with to_string_ := cls.toString o }) }, ?_⟩
    simp [World.ToString, hi, AdResult.ToString_fetch cls w.env hx hres hz, hz]
  · refine ⟨{ env := w.env, objects := w.objects.set i (some h) }, ?_⟩
    simp [World.ToString, hi,
      AdResult.ToString_cached cls w.env hx (JNIEnv.resolve_ne_null hres) hz, hz]

/-- C2. For every handle `h` of a store reached from the empty one by the operations
on `AdResult` objects (construction, accessors, assignments, destruction, and also
`set_to_string`) that holds a global reference `r`: the reference is live and denotes an object `o`, a populated
`code_` cache equals `getCode o`, and `code()` returns `getCode o`, read from the cache
when it is populated (no Java call) and otherwise fetched by one `getCode` call and
then cached. -/
theorem C2_code_is_foreign_code (cls : AdError) (ops : List Op) (w : World)
    (hr : World.init.run cls ops = some w) (i : Nat) (h : AdResult) (r : Nat)
    (hi : w.get i = some h) (href : h.ref = .globalRef r) :
    ∃ o w1 h1, w.env.globals[r]? = some (o, true) ∧
      (h.code_ ≠ 0 → h.code_ = cls.getCode o) ∧
      w.code cls i = some (cls.getCode o, w1) ∧
      w1.get i = some h1 ∧ h1.code_ = cls.getCode o ∧ h1.ref = .globalRef r ∧
      (h.code_ ≠ 0 → w1.env.calls = w.env.calls) ∧
      (h.code_ = 0 → w1.env.calls = w.env.calls ++ [(.kGetCode, o)]) := by
  have hw : WF cls false w := WF.reachable hr
  obtain ⟨o, hl, hco⟩ := hw.live hi href
  have hres : w.env.resolve h.ref = some o := by
    rw [href]; exact JNIEnv.resolve_global hl
  obtain ⟨env1, e1, e2, e3⟩ := hw.code_value hi hres
  refine ⟨o, _, _, hl, hco.1, e1, World.get_set_self hi _ _, rfl, ?_, ?_, ?_⟩
  · simpa [AdResult.ref] using href
  · intro hne
    rw [(e2 hne).2]
  · intro hz
    rw [e3 hz]

theorem C2_code_is_foreign_code_witness :
    ∃ o w1 h1, sampleWorld.env.globals[0]? = some (o, true) ∧
      (sampleHandle.code_ ≠ 0 → sampleHandle.code_ = sampleAdError.getCode o) ∧
      sampleWorld.code sampleAdError 0 = some (sampleAdError.getCode o, w1) ∧
      w1.get 0 = some h1 ∧ h1.code_ = sampleAdError.getCode o ∧ h1.ref = .globalRef 0 ∧
      (sampleHandle.code_ ≠ 0 → w1.env.calls = sampleWorld.env.calls) ∧
      (sampleHandle.code_ = 0 →
        w1.env.calls = sampleWorld.env.calls ++ [(.kGetCode, o)]) :=
  C2_code_is_foreign_code sampleAdError [.construct (some 1), .code 0] sampleWorld
    (by decide) 0 sampleHandle 0 (by decide) (by decide)


theorem AdResult.code_twice (cls : AdError) (env : JNIEnv) (h : AdResult)
    (x : AdResultInternal) (hx : h.internal_ = some x)
    (hv : x.j_ad_error = .null ∨ ∃ o, env.resolve x.j_ad_error = some o) :
    ∃ v h1 env1 env2, h.code cls env = some (v, h1, env1) ∧
      h1.code cls env1 = some (v, h1, env2) ∧
      (x.j_ad_error = .null ∨ v ≠ 0 → env2 = env1) ∧
      (∀ o, env.resolve x.j_ad_error = some o → v = 0 →
        env2.calls = env1.calls ++ [(.kGetCode, o)]) := by
  rcases hv with h0 | ⟨o, hres⟩
  · refine ⟨0, h, env, env, AdResult.code_null cls env hx h0,
      AdResult.code_null cls env hx h0, fun _ => rfl, ?_⟩
    intro o hres
    exact absurd h0 (JNIEnv.resolve_ne_null hres)
  · have hnn := JNIEnv.resolve_ne_null hres
    by_cases hz : h.code_ = 0
    · have e1 := AdResult.code_fetch cls env hx hres hz
      have hx1 : ({ h with code_ := cls.getCode o } : AdResult).internal_ = some x := hx
      have hres1 : JNIEnv.resolve { env with calls := env.calls ++ [(.kGetCode, o)] }
          x.j_ad_error = some o := by
        rw [JNIEnv.resolve_calls]; exact hres
      by_cases hv0 : cls.getCode o = 0
      · have e2 := AdResult.code_fetch cls _ hx1 hres1 hv0
        refine ⟨_, _, _, _, e1, e2, ?_, ?_⟩
        · rintro (h0 | hne)
          · exact absurd h0 hnn
          · exact absurd hv0 hne
        · intro o2 hres2 _
          rw [hres] at hres2
          cases hres2
          rfl
      · have e2 := AdResult.code_cached cls
          { env with calls := env.calls ++ [(.kGetCode, o)] } hx1 hnn hv0
        refine ⟨_, _, _, _, e1, e2, fun _ => rfl, ?_⟩
        intro o2 _ hv1
        exact absurd hv1 hv0
    · have e1 := AdResult.code_cached cls env hx hnn hz
      refine ⟨_, _, _, _, e1, e1, fun _ => rfl, ?_⟩
      intro o2 _ hv1
      exact absurd hv1 hz

theorem AdResult.domain_twice (cls : AdError) (env : JNIEnv) (h : AdResult)
    (x : AdResultInternal) (o : Nat) (hx : h.internal_ = some x)
    (hres : env.resolve x.j_ad_error = some o) :
    ∃ v h1 env1 env2, h.domain cls env = some (.valid v, h1, env1) ∧
      h1.domain cls env1 = some (.valid v, h1, env2) ∧
      (v ≠ "" → env2 = env1) ∧
      (v = "" → env2.calls = env1.calls ++ [(.kGetDomain, o)]) := by
  have hnn := JNIEnv.resolve_ne_null hres
  by_cases hz : h.domain_ = ""
  · have e1 := AdResult.domain_fetch cls env hx hres hz
    have hx1 : ({ h with domain_ := cls.getDomain o } : AdResult).internal_ = some x := hx
    have hres1 : JNIEnv.resolve { env with calls := env.calls ++ [(.kGetDomain, o)] }
        x.j_ad_error = some o := by
      rw [JNIEnv.resolve_calls]; exact hres
    by_cases hv0 : cls.getDomain o = ""
    · have e2 := AdResult.domain_fetch cls _ hx1 hres1 hv0
      exact ⟨_, _, _, _, e1, e2, fun hne => absurd hv0 hne, fun _ => rfl⟩
    · have e2 := AdResult.domain_cached cls
        { env with calls := env.calls ++ [(.kGetDomain, o)] } hx1 hnn hv0
      exact ⟨_, _, _, _, e1, e2, fun _ => rfl, fun hv1 => absurd hv1 hv0⟩
  · have e1 := AdResult.domain_cached cls env hx hnn hz
    exact ⟨_, _, _, _, e1, e1, fun _ => rfl, fun hv1 => absurd hv1 hz⟩

theorem AdResult.message_twice (cls : AdError) (env : JNIEnv) (h : AdResult)
    (x : AdResultInternal) (o : Nat) (hx : h.internal_ = some x)
    (hres : env.resolve x.j_ad_error = some o) :
    ∃ v h1 env1 env2, h.message cls env = some (.valid v, h1, env1) ∧
      h1.message cls env1 = some (.valid v, h1, env2) ∧
      (v ≠ "" → env2 = env1) ∧
      (v = "" → env2.calls = env1.calls ++ [(.kGetMessage, o)]) := by
  have hnn := JNIEnv.resolve_ne_null hres
  by_cases hz : h.message_ = ""
  · have e1 := AdResult.message_fetch cls env hx hres hz
    have hx1 : ({ h with message_ := cls.getMessage o } : AdResult).internal_ = some x := hx
    have hres1 : JNIEnv.resolve { env with calls := env.calls ++ [(.kGetMessage, o)] }
        x.j_ad_error = some o := by
      rw [JNIEnv.resolve_calls]; exact hres
    by_cases hv0 : cls.getMessage o = ""
    · have e2 := AdResult.message_fetch cls _ hx1 hres1 hv0
      exact ⟨_, _, _, _, e1, e2, fun hne => absurd hv0 hne, fun _ => rfl⟩
    · have e2 := AdResult.message_cached cls
        { env with calls := env.calls ++ [(.kGetMessage, o)] } hx1 hnn hv0
      exact ⟨_, _, _, _, e1, e2, fun _ => rfl, fun hv1 => absurd hv1 hv0⟩
  · have e1 := AdResult.message_cached cls env hx hnn hz
    exact ⟨_, _, _, _, e1, e1, fun _ => rfl, fun hv1 => absurd hv1 hz⟩

theorem AdResult.ToString_twice (cls : AdError) (env : JNIEnv) (h : AdResult)
    (x : AdResultInternal) (o : Nat) (hx : h.internal_ = some x)
    (hres : env.resolve x.j_ad_error = some o) :
    ∃ v h1 env1 env2, h.ToString cls env = some (.valid v, h1, env1) ∧
      h1.ToString cls env1 = some (.valid v, h1, env2) ∧
      (v ≠ "" → env2 = env1) ∧
      (v = "" → env2.calls = env1.calls ++ [(.kToString, o)]) := by
  have hnn := JNIEnv.resolve_ne_null hres
  by_cases hz : h.to_string_ = ""
  · have e1 := AdResult.ToString_fetch cls env hx hres hz
    have hx1 : ({ h with to_string_ := cls.toString o } : AdResult).internal_ = some x := hx
    have hres1 : JNIEnv.resolve { env with calls := env.calls ++ [(.kToString, o)] }
        x.j_ad_error = some o := by
      rw [JNIEnv.resolve_calls]; exact hres
    by_cases hv0 : cls.toString o = ""
    · have e2 := AdResult.ToString_fetch cls _ hx1 hres1 hv0
      exact ⟨_, _, _, _, e1, e2, fun hne => absurd hv0 hne, fun _ => rfl⟩
    · have e2 := AdResult.ToString_cached cls
        { env with calls := env.calls ++ [(.kToString, o)] } hx1 hnn hv0
      exact ⟨_, _, _, _, e1, e2, fun _ => rfl, fun hv1 => absurd hv1 hv0⟩
  · have e1 := AdResult.ToString_cached cls env hx hnn hz
    exact ⟨_, _, _, _, e1, e1, fun _ => rfl, fun hv1 => absurd hv1 hz⟩

/-- C3 as stated fails: for the Java object 9, whose code is 0, the second of two
consecutive `code()` calls invokes `getCode` again. -/
theorem C3_counterexample :
    (World.init.run sampleAdError [.construct (some 9), .code 0]).map
        (fun w => w.env.calls) = some [(.kGetCode, 9)] ∧
    (World.init.run sampleAdError [.construct (some 9), .code 0, .code 0]).map
        (fun w => w.env.calls) = some [(.kGetCode, 9), (.kGetCode, 9)] := by
  decide

/-- C3, amended. For every handle whose reference is null or valid, two `code()`
calls in a row return the same value and leave the same handle state; the second call
invokes no Java method (the JNI environment is unchanged) when the handle holds no
reference or the value is not the sentinel `0`, and invokes `getCode` once more when
the handle holds a reference and the value is `0`. For every handle that holds a valid
reference, the same holds of `domain()`, `message()` and `ToString()` with the empty
string as sentinel: both calls return a reference to the same member string, and the
second call invokes the Java accessor again exactly when that string is empty. -/
theorem C3_idempotent_unless_sentinel (cls : AdError) (env : JNIEnv) (h : AdResult)
    (x : AdResultInternal) (hx : h.internal_ = some x)
    (hv : x.j_ad_error = .null ∨ ∃ o, env.resolve x.j_ad_error = some o) :
    (∃ v h1 env1 env2, h.code cls env = some (v, h1, env1) ∧
      h1.code cls env1 = some (v, h1, env2) ∧
      (x.j_ad_error = .null ∨ v ≠ 0 → env2 = env1) ∧
      (∀ o, env.resolve x.j_ad_error = some o → v = 0 →
        env2.calls = env1.calls ++ [(.kGetCode, o)])) ∧
    (∀ o, env.resolve x.j_ad_error = some o →
      (∃ v h1 env1 env2, h.domain cls env = some (.valid v, h1, env1) ∧
        h1.domain cls env1 = some (.valid v, h1, env2) ∧
        (v ≠ "" → env2 = env1) ∧
        (v = "" → env2.calls = env1.calls ++ [(.kGetDomain, o)])) ∧
      (∃ v h1 env1 env2, h.message cls env = some (.valid v, h1, env1) ∧
        h1.message cls env1 = some (.valid v, h1, env2) ∧
        (v ≠ "" → env2 = env1) ∧
        (v = "" → env2.calls = env1.calls ++ [(.kGetMessage, o)])) ∧
      (∃ v h1 env1 env2, h.ToString cls env = some (.valid v, h1, env1) ∧
        h1.ToString cls env1 = some (.valid v, h1, env2) ∧
        (v ≠ "" → env2 = env1) ∧
        (v = "" → env2.calls = env1.calls ++ [(.kToString, o)]))) :=
  ⟨AdResult.code_twice cls env h x hx hv, fun o hres =>
    ⟨AdResult.domain_twice cls env h x o hx hres,
      AdResult.message_twice cls env h x o hx hres,
      AdResult.ToString_twice cls env h x o hx hres⟩⟩

theorem C3_idempotent_unless_sentinel_witness :
    (∃ v h1 env1 env2, sampleHandle.code sampleAdError sampleWorld.env = some (v, h1, env1) ∧
      h1.code sampleAdError env1 = some (v, h1, env2) ∧
      (jobject.globalRef 0 = .null ∨ v ≠ 0 → env2 = env1) ∧
      (∀ o, sampleWorld.env.resolve (.globalRef 0) = some o → v = 0 →
        env2.calls = env1.calls ++ [(.kGetCode, o)])) ∧
    (∀ o, sampleWorld.env.resolve (.globalRef 0) = some o →
      (∃ v h1 env1 env2,
        sampleHandle.domain sampleAdError sampleWorld.env = some (.valid v, h1, env1) ∧
        h1.domain sampleAdError env1 = some (.valid v, h1, env2) ∧
        (v ≠ "" → env2 = env1) ∧
        (v = "" → env2.calls = env1.calls ++ [(.kGetDomain, o)])) ∧
      (∃ v h1 env1 env2,
        sampleHandle.message sampleAdError sampleWorld.env = some (.valid v, h1, env1) ∧
        h1.message sampleAdError env1 = some (.valid v, h1, env2) ∧
        (v ≠ "" → env2 = env1) ∧
        (v = "" → env2.calls = env1.calls ++ [(.kGetMessage, o)])) ∧
      (∃ v h1 env1 env2,
        sampleHandle.ToString sampleAdError sampleWorld.env = some (.valid v, h1, env1) ∧
        h1.ToString sampleAdError env1 = some (.valid v, h1, env2) ∧
        (v ≠ "" → env2 = env1) ∧
        (v = "" → env2.calls = env1.calls ++ [(.kToString, o)]))) :=
  C3_idempotent_unless_sentinel sampleAdError sampleWorld.env sampleHandle
    { j_ad_error := .globalRef 0 } rfl (Or.inr ⟨1, by decide⟩)

theorem World.get_congr {w1 : World} {l : List (Option AdResult)} (e : w1.objects = l)
    (k : Nat) : w1.get k = World.get { env := w1.env, objects := l } k := by
  rw [← e]

/-- C4. In every reachable store, for two different live handles `dst` and `src`, the
assignment `dst = src` succeeds and afterwards: `src` is unchanged; the cached code,
domain, message and string of `dst` are those of `src`; no Java method has been
invoked; `dst` holds null if `src` does, and otherwise a global reference of its own,
one that did not exist before, is different from the reference of `src`, and is live
and denotes the same Java object as the (still live) reference of `src`. -/
theorem C4_copy_assignment (cls : AdError) (ops : List Op) (w : World)
    (hr : World.init.run cls ops = some w) (dst src : Nat) (d s : AdResult)
    (hne : dst ≠ src) (hd : w.get dst = some d) (hs : w.get src = some s) :
    ∃ w1 d1, w.operatorAssign dst src = some w1 ∧ w1.get dst = some d1 ∧
      w1.get src = some s ∧
      d1.code_ = s.code_ ∧ d1.domain_ = s.domain_ ∧ d1.message_ = s.message_ ∧
      d1.to_string_ = s.to_string_ ∧
      w1.env.calls = w.env.calls ∧
      (s.ref = .null → d1.ref = .null) ∧
      (∀ r, s.ref = .globalRef r → ∃ r1 o, d1.ref = .globalRef r1 ∧ r1 ≠ r ∧
        w.env.globals[r1]? = none ∧ w1.env.globals[r1]? = some (o, true) ∧
        w.env.globals[r]? = some (o, true) ∧ w1.env.globals[r]? = some (o, true)) := by
  have hw : WF cls false w := WF.reachable hr
  obtain ⟨w1, e, -, hcalls, -, -, -, -, hcopy⟩ := hw.operatorAssign_ok hd hs
  obtain ⟨g, hobj, hnull, hlive⟩ := hcopy hne
  refine ⟨w1, AdResult.mk (some (AdResultInternal.mk g)) s.code_ s.domain_ s.message_
    s.to_string_, e, ?_, ?_, rfl, rfl, rfl, rfl, hcalls, ?_, ?_⟩
  · rw [World.get_congr hobj, World.get_set_self hd]
  · rw [World.get_congr hobj, World.get_set_ne w (Ne.symm hne)]
    exact hs
  · intro h0
    simp [AdResult.ref, hnull h0]
  · intro r hr
    obtain ⟨o, hl, -⟩ := hw.live hs hr
    obtain ⟨hg, h1, h2⟩ := hlive r o hr hl
    refine ⟨w.env.globals.length, o, by simp [AdResult.ref, hg], ?_, ?_, h1, hl, h2⟩
    · exact Nat.ne_of_gt (getElem?_some_lt hl)
    · exact List.getElem?_eq_none (Nat.le_refl _)

theorem C4_copy_assignment_witness :
    ∃ w1 d1, sampleWorld2.operatorAssign 1 0 = some w1 ∧ w1.get 1 = some d1 ∧
      w1.get 0 = some sampleHandle ∧
      d1.code_ = sampleHandle.code_ ∧ d1.domain_ = sampleHandle.domain_ ∧
      d1.message_ = sampleHandle.message_ ∧ d1.to_string_ = sampleHandle.to_string_ ∧
      w1.env.calls = sampleWorld2.env.calls ∧
      (sampleHandle.ref = .null → d1.ref = .null) ∧
      (∀ r, sampleHandle.ref = .globalRef r → ∃ r1 o, d1.ref = .globalRef r1 ∧ r1 ≠ r ∧
        sampleWorld2.env.globals[r1]? = none ∧ w1.env.globals[r1]? = some (o, true) ∧
        sampleWorld2.env.globals[r]? = some (o, true) ∧
        w1.env.globals[r]? = some (o, true)) :=
  C4_copy_assignment sampleAdError [.construct (some 1), .code 0, .construct none]
    sampleWorld2 (by decide) 1 0 nullHandle sampleHandle (by decide) (by decide) (by decide)

/-- C5. In every reachable store, for live handles `dst` and `src` (possibly the same
handle), the assignment `dst = src` succeeds (no assertion fails, no invalid
reference is used); it makes exactly one `DeleteGlobalRef` call, on the reference
`dst` held before; when that reference is not null it was live and had never been
released, and afterwards it is released and occurs exactly once among all the
`DeleteGlobalRef` calls made so far; and afterwards (as before) the outstanding global
references to each Java object are as many as the live handles that hold a reference
to it. -/
theorem C5_assignment_no_leak (cls : AdError) (ops : List Op) (w : World)
    (hr : World.init.run cls ops = some w) (dst src : Nat) (d s : AdResult)
    (hd : w.get dst = some d) (hs : w.get src = some s) :
    ∃ w1, w.operatorAssign dst src = some w1 ∧
      w1.env.deleted = w.env.deleted ++ [d.ref] ∧
      (∀ r, d.ref = .globalRef r →
        (∃ o, w.env.globals[r]? = some (o, true)) ∧
        (∃ o, w1.env.globals[r]? = some (o, false)) ∧
        w.env.deleted.count (.globalRef r) = 0 ∧
        w1.env.deleted.count (.globalRef r) = 1) ∧
      (∀ o, outstanding w o = holders w o) ∧
      (∀ o, outstanding w1 o = holders w1 o) := by
  have hw : WF cls false w := WF.reachable hr
  have hlog : LogOK w.env := LogOK.log_reachable hr
  obtain ⟨w1, e, hw1, -, hdel, hdead, -, -, -⟩ := hw.operatorAssign_ok hd hs
  refine ⟨w1, e, hdel, ?_, hw.balanced, hw1.balanced⟩
  intro r href
  obtain ⟨o, hl, -⟩ := hw.live hd href
  have h0 := hlog.count_zero hl
  refine ⟨⟨o, hl⟩, hdead r href, h0, ?_⟩
  rw [hdel, href]
  exact count_after_release h0

theorem C5_assignment_no_leak_witness :
    ∃ w1, sampleWorld.operatorAssign 0 0 = some w1 ∧
      w1.env.deleted = sampleWorld.env.deleted ++ [sampleHandle.ref] ∧
      (∀ r, sampleHandle.ref = .globalRef r →
        (∃ o, sampleWorld.env.globals[r]? = some (o, true)) ∧
        (∃ o, w1.env.globals[r]? = some (o, false)) ∧
        sampleWorld.env.deleted.count (.globalRef r) = 0 ∧
        w1.env.deleted.count (.globalRef r) = 1) ∧
      (∀ o, outstanding sampleWorld o = holders sampleWorld o) ∧
      (∀ o, outstanding w1 o = holders w1 o) :=
  C5_assignment_no_leak sampleAdError [.construct (some 1), .code 0] sampleWorld
    (by decide) 0 0 sampleHandle sampleHandle (by decide) (by decide)

/-- Destruction of a live handle of a well-formed store: what is released, and what
is left alone. -/
theorem WF.destroy_frame {cls : AdError} {w : World} (hw : WF cls st w) {i : Nat} {h : AdResult}
    (hi : w.get i = some h) :
    ∃ w1, w.destroy i = some w1 ∧ WF cls st w1 ∧ w1.get i = none ∧
      (h.ref = .null → w1.env = w.env) ∧
      (∀ r, h.ref = .globalRef r →
        w1.env.deleted = w.env.deleted ++ [.globalRef r] ∧
        w1.env.calls = w.env.calls ∧
        ∃ o, w.env.globals[r]? = some (o, true) ∧ w1.env.globals[r]? = some (o, false)) ∧
      (∀ k hk, k ≠ i → w.get k = some hk → w1.get k = some hk ∧
        ∀ rk, hk.ref = .globalRef rk → ∃ o, w.env.globals[rk]? = some (o, true) ∧
          w1.env.globals[rk]? = some (o, true)) := by
  obtain ⟨w1, e, hw1, hobj, hnull, hlive⟩ := hw.destroy_ok hi
  refine ⟨w1, e, hw1, ?_, hnull, ?_, ?_⟩
  · rw [World.get_congr hobj, World.get_set_self hi]
  · intro r hr
    obtain ⟨o, hl, henv⟩ := hlive r hr
    rw [henv]
    exact ⟨rfl, rfl, o, hl, getElem?_release_self hl⟩
  · intro k hk hki hgk
    have hgk1 : w1.get k = some hk := by
      rw [World.get_congr hobj, World.get_set_ne w hki]
      exact hgk
    refine ⟨hgk1, ?_⟩
    intro rk hrk
    obtain ⟨o, hl, -⟩ := hw.live hgk hrk
    refine ⟨o, hl, ?_⟩
    obtain ⟨x, hx, hsh⟩ := hw.shape hi
    rcases hsh with h0 | ⟨r, o2, e1, e2, -, -⟩
    · rw [hnull (by rw [AdResult.ref_of_internal hx, h0])]
      exact hl
    · obtain ⟨o3, hl3, henv⟩ := hlive r (by rw [AdResult.ref_of_internal hx, e1])
      rw [henv]
      apply (getElem?_release hl3 rk o).2
      refine ⟨hl, ?_⟩
      intro e
      subst e
      exact hki (hw.inj k i hk h rk hgk hi hrk (by rw [AdResult.ref_of_internal hx, e1]))

/-- C7. In every reachable store, destroying a live handle succeeds and: when the
handle holds a global reference the destructor makes exactly one `DeleteGlobalRef`
call, on that reference, which was live and never released before, and is now
released, exactly once; when the handle holds null the JNI environment is left
untouched (no call at all); every other handle is unchanged and the reference it
holds is still live. -/
theorem C7_destructor_releases_once (cls : AdError) (ops : List Op) (w : World)
    (hr : World.init.run cls ops = some w) (i : Nat) (h : AdResult)
    (hi : w.get i = some h) :
    ∃ w1, w.destroy i = some w1 ∧ w1.get i = none ∧
      (h.ref = .null → w1.env = w.env) ∧
      (∀ r, h.ref = .globalRef r →
        w1.env.deleted = w.env.deleted ++ [.globalRef r] ∧
        w.env.deleted.count (.globalRef r) = 0 ∧
        w1.env.deleted.count (.globalRef r) = 1 ∧
        w1.env.calls = w.env.calls ∧
        ∃ o, w.env.globals[r]? = some (o, true) ∧ w1.env.globals[r]? = some (o, false)) ∧
      (∀ k hk, k ≠ i → w.get k = some hk → w1.get k = some hk ∧
        ∀ rk, hk.ref = .globalRef rk → ∃ o, w.env.globals[rk]? = some (o, true) ∧
          w1.env.globals[rk]? = some (o, true)) := by
  have hlog : LogOK w.env := LogOK.log_reachable hr
  obtain ⟨w1, e, -, h1, h2, h3, h4⟩ := (WF.reachable hr).destroy_frame hi
  refine ⟨w1, e, h1, h2, ?_, h4⟩
  intro r href
  obtain ⟨hdel, hcalls, o, hl, hl1⟩ := h3 r href
  have h0 := hlog.count_zero hl
  refine ⟨hdel, h0, ?_, hcalls, o, hl, hl1⟩
  rw [hdel]
  exact count_after_release h0

theorem C7_destructor_releases_once_witness :
    ∃ w1, sampleWorld2.destroy 0 = some w1 ∧ w1.get 0 = none ∧
      (sampleHandle.ref = .null → w1.env = sampleWorld2.env) ∧
      (∀ r, sampleHandle.ref = .globalRef r →
        w1.env.deleted = sampleWorld2.env.deleted ++ [.globalRef r] ∧
        sampleWorld2.env.deleted.count (.globalRef r) = 0 ∧
        w1.env.deleted.count (.globalRef r) = 1 ∧
        w1.env.calls = sampleWorld2.env.calls ∧
        ∃ o, sampleWorld2.env.globals[r]? = some (o, true) ∧
          w1.env.globals[r]? = some (o, false)) ∧
      (∀ k hk, k ≠ 0 → sampleWorld2.get k = some hk → w1.get k = some hk ∧
        ∀ rk, hk.ref = .globalRef rk → ∃ o, sampleWorld2.env.globals[rk]? = some (o, true) ∧
          w1.env.globals[rk]? = some (o, true)) :=
  C7_destructor_releases_once sampleAdError [.construct (some 1), .code 0, .construct none]
    sampleWorld2 (by decide) 0 sampleHandle (by decide)


theorem WF.is_successful_eq {cls : AdError} {w : World} (hw : WF cls st w) {i : Nat}
    {h : AdResult} (hi : w.get i = some h) :
    w.is_successful i = some (decide (h.ref = .null)) := by
  obtain ⟨x, hx, -⟩ := hw.shape hi
  simp [World.is_successful, hi, AdResult.is_successful, hx, AdResult.ref]

/-- The four lazy accessors on a handle of a well-formed store that refers to the
object `o` succeed; `code()`, `domain()` and `message()` return what the Java object
returns, `ToString()` returns the cached display string when there is one and what
the Java object returns otherwise. -/
theorem WF.values {cls : AdError} {w : World} (hw : WF cls st w) {i : Nat} {h : AdResult}
    {r o : Nat} (hi : w.get i = some h) (href : h.ref = .globalRef r)
    (hl : w.env.globals[r]? = some (o, true)) :
    (∃ w1, w.code cls i = some (cls.getCode o, w1)) ∧
    (∃ w1, w.domain cls i = some (.valid (cls.getDomain o), w1)) ∧
    (∃ w1, w.message cls i = some (.valid (cls.getMessage o), w1)) ∧
    (∃ w1, w.ToString cls i =
      some (.valid (if h.to_string_ = "" then cls.toString o else h.to_string_), w1)) := by
  have hres : w.env.resolve h.ref = some o := by
    rw [href]; exact JNIEnv.resolve_global hl
  obtain ⟨_, e1, -⟩ := hw.code_value hi hres
  obtain ⟨_, e2, -⟩ := hw.domain_value hi hres
  obtain ⟨_, e3, -⟩ := hw.message_value hi hres
  exact ⟨⟨_, e1⟩, ⟨_, e2⟩, ⟨_, e3⟩, hw.ToString_value hi hres⟩

/-- C6 as stated fails: when the display string of `a` has been replaced through
`set_to_string`, `ToString()` on the copy `b` (after `b = a` and the destruction of
`a`) returns the replaced string, not the string of the Java object. -/
theorem C6_counterexample :
    ((World.init.run sampleAdError
        [.construct (some 1), .set_to_string 0 "custom", .construct none, .assign 1 0,
         .destroy 0]).bind (fun w => w.ToString sampleAdError 1)).map Prod.fst =
      some (.valid "custom") ∧
    sampleAdError.toString 1 = "AdError" := by
  decide

/-- C6, amended. In every store reached from the empty one by the operations on
`AdResult` objects (construction, accessors, assignment, destruction, `set_to_string`)
no live handle holds a released reference: a global reference held by a live handle
is live. And for two different live handles `a` and `b`, `a` holding a global
reference to the object `o`: `b = a` followed by the destruction of `a` succeeds;
`a`'s reference is then released while `b` holds a live global reference to `o`;
`code()`, `domain()` and `message()` on `b` succeed and return what `o` returns;
`ToString()` on `b` succeeds and returns the display string cached in `a` when there
is one, and what `o` returns otherwise; it returns what `o` returns whenever
`set_to_string` has not been used. -/
theorem C6_copy_independence (cls : AdError) (ops : List Op) (w : World)
    (hr : World.init.run cls ops = some w) (a b : Nat) (ha : AdResult) (hb : AdResult)
    (r : Nat) (hab : a ≠ b) (hga : w.get a = some ha) (hgb : w.get b = some hb)
    (href : ha.ref = .globalRef r) :
    (∀ k hk rk, w.get k = some hk → hk.ref = .globalRef rk →
      ∃ o, w.env.globals[rk]? = some (o, true)) ∧
    ∃ o w1 w2 b2 rb, w.env.globals[r]? = some (o, true) ∧
      w.operatorAssign b a = some w1 ∧ w1.destroy a = some w2 ∧
      w2.get a = none ∧ w2.env.globals[r]? = some (o, false) ∧
      w2.get b = some b2 ∧ b2.ref = .globalRef rb ∧ w2.env.globals[rb]? = some (o, true) ∧
      (∃ w3, w2.code cls b = some (cls.getCode o, w3)) ∧
      (∃ w3, w2.domain cls b = some (.valid (cls.getDomain o), w3)) ∧
      (∃ w3, w2.message cls b = some (.valid (cls.getMessage o), w3)) ∧
      (∃ w3, w2.ToString cls b =
        some (.valid (if ha.to_string_ = "" then cls.toString o else ha.to_string_), w3)) ∧
      ((∀ op ∈ ops, op.isSetter = false) →
        ∃ w3, w2.ToString cls b = some (.valid (cls.toString o), w3)) := by
  have hw : WF cls false w := WF.reachable hr
  constructor
  · intro k hk rk hgk hrk
    obtain ⟨o, hl, -⟩ := hw.live hgk hrk
    exact ⟨o, hl⟩
  · obtain ⟨o, hl, -⟩ := hw.live hga href
    obtain ⟨w1, e1, hw1, -, -, -, -, -, hcopy⟩ := hw.operatorAssign_ok hgb hga
    obtain ⟨g, hobj, -, hlive⟩ := hcopy (Ne.symm hab)
    obtain ⟨hg, hl1, hl2⟩ := hlive r o href hl
    have hga1 : w1.get a = some ha := by
      rw [World.get_congr hobj, World.get_set_ne w hab]
      exact hga
    have hgb1 : w1.get b = some
        (AdResult.mk (some (AdResultInternal.mk g)) ha.code_ ha.domain_ ha.message_
          ha.to_string_) := by
      rw [World.get_congr hobj, World.get_set_self hgb]
    have hrefb : (AdResult.mk (some (AdResultInternal.mk g)) ha.code_ ha.domain_ ha.message_
          ha.to_string_).ref = .globalRef w.env.globals.length := by
      simp [AdResult.ref, hg]
    obtain ⟨w2, e2, hw2, hnone, -, hrel, hothers⟩ := hw1.destroy_frame hga1
    obtain ⟨-, -, o1, hl3, hl4⟩ := hrel r href
    rw [hl2] at hl3
    cases hl3
    obtain ⟨hgb2, hkeep⟩ := hothers b _ (Ne.symm hab) hgb1
    obtain ⟨o2, hl5, hl6⟩ := hkeep _ hrefb
    rw [hl1] at hl5
    cases hl5
    obtain ⟨v1, v2, v3, v4⟩ := hw2.values hgb2 hrefb hl6
    refine ⟨o, w1, w2, _, _, hl, e1, e2, hnone, hl4, hgb2, hrefb, hl6, v1, v2, v3, v4, ?_⟩
    intro hns
    obtain ⟨o3, hl7, hco⟩ := (WF.reachable_strict hns hr).live hga href
    rw [hl] at hl7
    cases hl7
    obtain ⟨w3, e3⟩ := v4
    refine ⟨w3, ?_⟩
    rw [e3]
    by_cases hz : ha.to_string_ = ""
    · simp [hz]
    · simp [hz, hco.2.2.2 rfl hz]

theorem C6_copy_independence_witness :
    (∀ k hk rk, sampleWorld2.get k = some hk → hk.ref = .globalRef rk →
      ∃ o, sampleWorld2.env.globals[rk]? = some (o, true)) ∧
    ∃ o w1 w2 b2 rb, sampleWorld2.env.globals[0]? = some (o, true) ∧
      sampleWorld2.operatorAssign 1 0 = some w1 ∧ w1.destroy 0 = some w2 ∧
      w2.get 0 = none ∧ w2.env.globals[0]? = some (o, false) ∧
      w2.get 1 = some b2 ∧ b2.ref = .globalRef rb ∧ w2.env.globals[rb]? = some (o, true) ∧
      (∃ w3, w2.code sampleAdError 1 = some (sampleAdError.getCode o, w3)) ∧
      (∃ w3, w2.domain sampleAdError 1 = some (.valid (sampleAdError.getDomain o), w3)) ∧
      (∃ w3, w2.message sampleAdError 1 = some (.valid (sampleAdError.getMessage o), w3)) ∧
      (∃ w3, w2.ToString sampleAdError 1 =
        some (.valid (if sampleHandle.to_string_ = "" then sampleAdError.toString o
          else sampleHandle.to_string_), w3)) ∧
      ((∀ op ∈ [Op.construct (some 1), Op.code 0, Op.construct none],
          op.isSetter = false) →
        ∃ w3, w2.ToString sampleAdError 1 = some (.valid (sampleAdError.toString o), w3)) :=
  C6_copy_independence sampleAdError [.construct (some 1), .code 0, .construct none]
    sampleWorld2 (by decide) 0 1 sampleHandle nullHandle 0 (by decide) (by decide)
    (by decide) (by decide)

theorem World.get_length (w : World) : w.get w.objects.length = none := by
  simp [World.get]

/-- One `GetCause()` call on a handle of a well-formed store that refers to the
object `o`: a new handle is allocated for the cause; the handles and references that
existed are left alone. -/
theorem WF.GetCause_frame {cls : AdError} {w : World} (hw : WF cls st w) {i : Nat}
    {h : AdResult} {r o : Nat} (hi : w.get i = some h) (href : h.ref = .globalRef r)
    (hl : w.env.globals[r]? = some (o, true)) :
    ∃ w1 c, w.GetCause cls i = some (some w.objects.length, w1) ∧ WF cls st w1 ∧
      w1.get w.objects.length = some c ∧ c.code_ = 0 ∧
      w1.env.calls = w.env.calls ++ [(.kGetCause, o)] ∧
      (∀ k hk, w.get k = some hk → w1.get k = some hk) ∧
      (∀ (r' : Nat) x, w.env.globals[r']? = some x → w1.env.globals[r']? = some x) ∧
      (cls.getCause o = none → c.ref = .null) ∧
      (∀ a, cls.getCause o = some a → c.ref = .globalRef w.env.globals.length ∧
        w.env.globals[w.env.globals.length]? = none ∧
        w1.env.globals[w.env.globals.length]? = some (a, true)) := by
  obtain ⟨c, env1, e, hw1, hc, -, -, -, hcalls, -, hnone, hsome⟩ :=
    (hw.GetCause_ok hi).2 r o href hl
  refine ⟨_, c, e, hw1, World.get_push_self w env1 (some c), hc, hcalls, ?_, ?_, ?_, ?_⟩
  · intro k hk hgk
    rw [World.get_push_lt (World.get_lt hgk)]
    exact hgk
  · intro r' x hx
    show env1.globals[r']? = some x
    cases hca : cls.getCause o with
    | none => rw [(hnone hca).2]; exact hx
    | some a =>
      rw [(hsome a hca).2, List.getElem?_append_left (getElem?_some_lt hx)]
      exact hx
  · intro hca
    rw [AdResult.ref_of_internal (hnone hca).1]
  · intro a hca
    refine ⟨by rw [AdResult.ref_of_internal (hsome a hca).1], ?_, ?_⟩
    · exact List.getElem?_eq_none (Nat.le_refl _)
    · show env1.globals[w.env.globals.length]? = some (a, true)
      rw [(hsome a hca).2]
      simp

/-- C8. In every reachable store, for a live handle `i` that refers to a Java object
`root` whose cause is `A`, `A`'s cause being `B` and `B` having no cause: `GetCause()`
on `i` returns a new handle `iA` holding a newly created live global reference to `A`;
`GetCause()` on `iA` returns a new handle `iB` holding a newly created live global
reference to `B`; `GetCause()` on `iB` returns a new handle `iC` that holds no
reference, on which `is_successful()` is true and `GetCause()` returns the null
pointer. On `iA` and `iB`, `is_successful()` returns false and `code()` returns
`getCode A`, resp. `getCode B`, and this still holds for `iA` after the handle `i` has
been destroyed and for `iB` after `i` and `iA` have been destroyed. -/
theorem C8_cause_chain (cls : AdError) (ops : List Op) (w : World)
    (hr : World.init.run cls ops = some w) (i : Nat) (h : AdResult) (r root A B : Nat)
    (hi : w.get i = some h) (href : h.ref = .globalRef r)
    (hroot : w.env.globals[r]? = some (root, true))
    (hA : cls.getCause root = some A) (hB : cls.getCause A = some B)
    (hN : cls.getCause B = none) :
    ∃ iA w1 cA rA iB w2 cB rB iC w3 cC w4 w5,
      w.GetCause cls i = some (some iA, w1) ∧ w.get iA = none ∧ w1.get iA = some cA ∧
      cA.ref = .globalRef rA ∧ w.env.globals[rA]? = none ∧
      w1.env.globals[rA]? = some (A, true) ∧
      w1.GetCause cls iA = some (some iB, w2) ∧ w1.get iB = none ∧ w2.get iB = some cB ∧
      cB.ref = .globalRef rB ∧ w1.env.globals[rB]? = none ∧
      w2.env.globals[rB]? = some (B, true) ∧
      w2.GetCause cls iB = some (some iC, w3) ∧ w2.get iC = none ∧ w3.get iC = some cC ∧
      cC.ref = .null ∧ w3.is_successful iC = some true ∧
      w3.GetCause cls iC = some (none, w3) ∧
      w3.is_successful iA = some false ∧ (∃ w', w3.code cls iA = some (cls.getCode A, w')) ∧
      w3.is_successful iB = some false ∧ (∃ w', w3.code cls iB = some (cls.getCode B, w')) ∧
      w3.destroy i = some w4 ∧
      w4.is_successful iA = some false ∧ (∃ w', w4.code cls iA = some (cls.getCode A, w')) ∧
      w4.destroy iA = some w5 ∧
      w5.is_successful iB = some false ∧
      (∃ w', w5.code cls iB = some (cls.getCode B, w')) := by
  have hw : WF cls false w := WF.reachable hr
  obtain ⟨w1, cA, e1, hw1, gA1, -, -, keep1, live1, -, new1⟩ := hw.GetCause_frame hi href hroot
  obtain ⟨refA, freshA, liveA1⟩ := new1 A hA
  obtain ⟨w2, cB, e2, hw2, gB2, -, -, keep2, live2, -, new2⟩ :=
    hw1.GetCause_frame gA1 refA liveA1
  obtain ⟨refB, freshB, liveB2⟩ := new2 B hB
  obtain ⟨w3, cC, e3, hw3, gC3, -, -, keep3, live3, nullC, -⟩ :=
    hw2.GetCause_frame gB2 refB liveB2
  have refC := nullC hN
  have gA3 := keep3 _ _ (keep2 _ _ gA1)
  have gB3 := keep3 _ _ gB2
  have gi3 := keep3 _ _ (keep2 _ _ (keep1 _ _ hi))
  have liveA3 := live3 _ _ (live2 _ _ liveA1)
  have liveB3 := live3 _ _ liveB2
  have hiA : w.objects.length ≠ i := Nat.ne_of_gt (World.get_lt hi)
  have hiB : w1.objects.length ≠ w.objects.length := Nat.ne_of_gt (World.get_lt gA1)
  obtain ⟨w4, e4, hw4, -, -, -, others4⟩ := hw3.destroy_frame gi3
  obtain ⟨gA4, hkA⟩ := others4 _ _ hiA gA3
  obtain ⟨oA, lA3, liveA4⟩ := hkA _ refA
  rw [liveA3] at lA3
  cases lA3
  have hiBi : w1.objects.length ≠ i := by
    have h1 := World.get_lt (keep1 _ _ hi)
    omega
  obtain ⟨gB4, hkB⟩ := others4 _ _ hiBi gB3
  obtain ⟨oB, lB3, liveB4⟩ := hkB _ refB
  rw [liveB3] at lB3
  cases lB3
  obtain ⟨w5, e5, hw5, -, -, -, others5⟩ := hw4.destroy_frame gA4
  obtain ⟨gB5, hkB5⟩ := others5 _ _ hiB gB4
  obtain ⟨oB5, lB4, liveB5⟩ := hkB5 _ refB
  rw [liveB4] at lB4
  cases lB4
  refine ⟨_, w1, cA, _, _, w2, cB, _, _, w3, cC, w4, w5, e1, World.get_length w, gA1, refA,
    freshA, liveA1, e2, World.get_length w1, gB2, refB, freshB, liveB2, e3,
    World.get_length w2, gC3, refC, ?_, (hw3.GetCause_ok gC3).1 refC, ?_,
    (hw3.values gA3 refA liveA3).1, ?_, (hw3.values gB3 refB liveB3).1, e4, ?_,
    (hw4.values gA4 refA liveA4).1, e5, ?_, (hw5.values gB5 refB liveB5).1⟩
  · rw [hw3.is_successful_eq gC3, refC]; rfl
  · rw [hw3.is_successful_eq gA3, refA]; rfl
  · rw [hw3.is_successful_eq gB3, refB]; rfl
  · rw [hw4.is_successful_eq gA4, refA]; rfl
  · rw [hw5.is_successful_eq gB5, refB]; rfl

theorem C8_cause_chain_witness :
    ∃ iA w1 cA rA iB w2 cB rB iC w3 cC w4 w5,
      sampleWorld.GetCause sampleAdError 0 = some (some iA, w1) ∧
      sampleWorld.get iA = none ∧ w1.get iA = some cA ∧
      cA.ref = .globalRef rA ∧ sampleWorld.env.globals[rA]? = none ∧
      w1.env.globals[rA]? = some (2, true) ∧
      w1.GetCause sampleAdError iA = some (some iB, w2) ∧ w1.get iB = none ∧
      w2.get iB = some cB ∧
      cB.ref = .globalRef rB ∧ w1.env.globals[rB]? = none ∧
      w2.env.globals[rB]? = some (3, true) ∧
      w2.GetCause sampleAdError iB = some (some iC, w3) ∧ w2.get iC = none ∧
      w3.get iC = some cC ∧
      cC.ref = .null ∧ w3.is_successful iC = some true ∧
      w3.GetCause sampleAdError iC = some (none, w3) ∧
      w3.is_successful iA = some false ∧
      (∃ w', w3.code sampleAdError iA = some (sampleAdError.getCode 2, w')) ∧
      w3.is_successful iB = some false ∧
      (∃ w', w3.code sampleAdError iB = some (sampleAdError.getCode 3, w')) ∧
      w3.destroy 0 = some w4 ∧
      w4.is_successful iA = some false ∧
      (∃ w', w4.code sampleAdError iA = some (sampleAdError.getCode 2, w')) ∧
      w4.destroy iA = some w5 ∧
      w5.is_successful iB = some false ∧
      (∃ w', w5.code sampleAdError iB = some (sampleAdError.getCode 3, w')) :=
  C8_cause_chain sampleAdError [.construct (some 1), .code 0] sampleWorld (by decide)
    0 sampleHandle 0 1 2 3 (by decide) (by decide) (by decide) (by decide) (by decide)
    (by decide)


theorem WF.code_frame {cls : AdError} {w : World} (hw : WF cls st w) {i : Nat} {h : AdResult}
    (hi : w.get i = some h) :
    ∃ v w1 h1, w.code cls i = some (v, w1) ∧ w1.get i = some h1 ∧
      h1.internal_ = h.internal_ ∧
      (h.code_ ≠ 0 → h1.code_ = h.code_) ∧ (h.domain_ ≠ "" → h1.domain_ = h.domain_) ∧
      (h.message_ ≠ "" → h1.message_ = h.message_) ∧
      (h.to_string_ ≠ "" → h1.to_string_ = h.to_string_) := by
  have total : ∃ v h1 env1, h.code cls w.env = some (v, h1, env1) := by
    obtain ⟨x, hx, hsh⟩ := hw.shape hi
    rcases hsh with h0 | ⟨r, o, -, -, hres, -⟩
    · exact ⟨_, _, _, AdResult.code_null cls w.env hx h0⟩
    · by_cases hz : h.code_ = 0
      · exact ⟨_, _, _, AdResult.code_fetch cls w.env hx hres hz⟩
      · exact ⟨_, _, _, AdResult.code_cached cls w.env hx (JNIEnv.resolve_ne_null hres) hz⟩
  obtain ⟨v, h1, env1, e⟩ := total
  obtain ⟨-, -, e3, a, b, c, d, -⟩ := @AdResult.code_touch st cls w.env _ _ _ _ e
  refine ⟨v, _, h1, ?_, World.get_set_self hi env1 (some h1), e3, d, fun _ => a, fun _ => b, fun _ => c⟩
  simp [World.code, hi, e]

theorem WF.domain_frame {cls : AdError} {w : World} (hw : WF cls st w) {i : Nat} {h : AdResult}
    (hi : w.get i = some h) :
    ∃ v w1 h1, w.domain cls i = some (v, w1) ∧ w1.get i = some h1 ∧
      h1.internal_ = h.internal_ ∧
      (h.code_ ≠ 0 → h1.code_ = h.code_) ∧ (h.domain_ ≠ "" → h1.domain_ = h.domain_) ∧
      (h.message_ ≠ "" → h1.message_ = h.message_) ∧
      (h.to_string_ ≠ "" → h1.to_string_ = h.to_string_) := by
  have total : ∃ v h1 env1, h.domain cls w.env = some (v, h1, env1) := by
    obtain ⟨x, hx, hsh⟩ := hw.shape hi
    rcases hsh with h0 | ⟨r, o, -, -, hres, -⟩
    · exact ⟨_, _, _, AdResult.domain_null cls w.env hx h0⟩
    · by_cases hz : h.domain_ = ""
      · exact ⟨_, _, _, AdResult.domain_fetch cls w.env hx hres hz⟩
      · exact ⟨_, _, _, AdResult.domain_cached cls w.env hx (JNIEnv.resolve_ne_null hres) hz⟩
  obtain ⟨v, h1, env1, e⟩ := total
  obtain ⟨-, -, e3, a, b, c, d, -⟩ := @AdResult.domain_touch st cls w.env _ _ _ _ e
  refine ⟨v, _, h1, ?_, World.get_set_self hi env1 (some h1), e3, fun _ => a, d, fun _ => b, fun _ => c⟩
  simp [World.domain, hi, e]

theorem WF.message_frame {cls : AdError} {w : World} (hw : WF cls st w) {i : Nat} {h : AdResult}
    (hi : w.get i = some h) :
    ∃ v w1 h1, w.message cls i = some (v, w1) ∧ w1.get i = some h1 ∧
      h1.internal_ = h.internal_ ∧
      (h.code_ ≠ 0 → h1.code_ = h.code_) ∧ (h.domain_ ≠ "" → h1.domain_ = h.domain_) ∧
      (h.message_ ≠ "" → h1.message_ = h.message_) ∧
      (h.to_string_ ≠ "" → h1.to_string_ = h.to_string_) := by
  have total : ∃ v h1 env1, h.message cls w.env = some (v, h1, env1) := by
    obtain ⟨x, hx, hsh⟩ := hw.shape hi
    rcases hsh with h0 | ⟨r, o, -, -, hres, -⟩
    · exact ⟨_, _, _, AdResult.message_null cls w.env hx h0⟩
    · by_cases hz : h.message_ = ""
      · exact ⟨_, _, _, AdResult.message_fetch cls w.env hx hres hz⟩
      · exact ⟨_, _, _, AdResult.message_cached cls w.env hx (JNIEnv.resolve_ne_null hres) hz⟩
  obtain ⟨v, h1, env1, e⟩ := total
  obtain ⟨-, -, e3, a, b, c, d, -⟩ := @AdResult.message_touch st cls w.env _ _ _ _ e
  refine ⟨v, _, h1, ?_, World.get_set_self hi env1 (some h1), e3, fun _ => a, fun _ => b, d, fun _ => c⟩
  simp [World.message, hi, e]

theorem WF.ToString_frame {cls : AdError} {w : World} (hw : WF cls st w) {i : Nat} {h : AdResult}
    (hi : w.get i = some h) :
    ∃ v w1 h1, w.ToString cls i = some (v, w1) ∧ w1.get i = some h1 ∧
      h1.internal_ = h.internal_ ∧
      (h.code_ ≠ 0 → h1.code_ = h.code_) ∧ (h.domain_ ≠ "" → h1.domain_ = h.domain_) ∧
      (h.message_ ≠ "" → h1.message_ = h.message_) ∧
      (h.to_string_ ≠ "" → h1.to_string_ = h.to_string_) := by
  have total : ∃ v h1 env1, h.ToString cls w.env = some (v, h1, env1) := by
    obtain ⟨x, hx, hsh⟩ := hw.shape hi
    rcases hsh with h0 | ⟨r, o, -, -, hres, -⟩
    · exact ⟨_, _, _, AdResult.ToString_null cls w.env hx h0⟩
    · by_cases hz : h.to_string_ = ""
      · exact ⟨_, _, _, AdResult.ToString_fetch cls w.env hx hres hz⟩
      · exact ⟨_, _, _, AdResult.ToString_cached cls w.env hx (JNIEnv.resolve_ne_null hres) hz⟩
  obtain ⟨v, h1, env1, e⟩ := total
  obtain ⟨-, -, e3, a, b, c, d, -⟩ := @AdResult.ToString_touch st cls w.env _ _ _ _ e
  refine ⟨v, _, h1, ?_, World.get_set_self hi env1 (some h1), e3, fun _ => a, fun _ => b, fun _ => c, d⟩
  simp [World.ToString, hi, e]

/-- C9 as stated fails: a copy-assignment replaces a populated `code_` cache of its
destination by that of the source, and `set_to_string` replaces a populated
`to_string_` cache. -/
theorem C9_counterexample :
    ((World.init.run sampleAdError [.construct (some 1), .code 0]).bind
        (fun w => w.get 0)).map (fun h => h.code_) = some 1 ∧
    ((World.init.run sampleAdError
        [.construct (some 1), .code 0, .construct none, .assign 0 1]).bind
        (fun w => w.get 0)).map (fun h => h.code_) = some 0 ∧
    ((World.init.run sampleAdError [.construct (some 1), .ToString 0]).bind
        (fun w => w.get 0)).map
        (fun h => (h.to_string_, (h.set_to_string "custom").to_string_)) =
      some ("AdError", "custom") := by
  decide

/-- C9, amended. For every live handle of a reachable store: each accessor
(`is_successful()`, `GetCause()`, `code()`, `domain()`, `message()`, `ToString()`)
succeeds and changes no populated cache (a non-zero `code_`, a non-empty `domain_`,
`message_` or `to_string_`) of the handle; `set_to_string(s)` sets `to_string_` to `s`
and leaves the other three caches alone; a copy-assignment to the handle succeeds and
sets its four caches to those of the source. -/
theorem C9_cache_stability (cls : AdError) (ops : List Op) (w : World)
    (hr : World.init.run cls ops = some w) (i : Nat) (h : AdResult)
    (hi : w.get i = some h) :
    (∀ a : Accessor, ∃ w1 h1, w.step cls (a.toOp i) = some w1 ∧ w1.get i = some h1 ∧
      (h.code_ ≠ 0 → h1.code_ = h.code_) ∧ (h.domain_ ≠ "" → h1.domain_ = h.domain_) ∧
      (h.message_ ≠ "" → h1.message_ = h.message_) ∧
      (h.to_string_ ≠ "" → h1.to_string_ = h.to_string_)) ∧
    (∀ s, (h.set_to_string s).to_string_ = s ∧ (h.set_to_string s).code_ = h.code_ ∧
      (h.set_to_string s).domain_ = h.domain_ ∧ (h.set_to_string s).message_ = h.message_) ∧
    (∀ src s, w.get src = some s → ∃ w1 h1, w.operatorAssign i src = some w1 ∧
      w1.get i = some h1 ∧ h1.code_ = s.code_ ∧ h1.domain_ = s.domain_ ∧
      h1.message_ = s.message_ ∧ h1.to_string_ = s.to_string_) := by
  have hw : WF cls false w := WF.reachable hr
  refine ⟨?_, fun s => ⟨rfl, rfl, rfl, rfl⟩, ?_⟩
  · intro a
    cases a with
    | is_successful =>
      refine ⟨w, h, ?_, hi, fun _ => rfl, fun _ => rfl, fun _ => rfl, fun _ => rfl⟩
      simp [Accessor.toOp, World.step, hw.is_successful_eq hi]
    | GetCause =>
      obtain ⟨x, hx, hsh⟩ := hw.shape hi
      have href := AdResult.ref_of_internal hx
      rcases hsh with h0 | ⟨r, o, e1, e2, -, -⟩
      · refine ⟨w, h, ?_, hi, fun _ => rfl, fun _ => rfl, fun _ => rfl, fun _ => rfl⟩
        simp [Accessor.toOp, World.step, (hw.GetCause_ok hi).1 (by rw [href, h0])]
      · obtain ⟨w1, c, e, -, -, -, -, keep, -⟩ :=
          hw.GetCause_frame hi (by rw [href, e1]) e2
        refine ⟨w1, h, ?_, keep i h hi, fun _ => rfl, fun _ => rfl, fun _ => rfl,
          fun _ => rfl⟩
        simp [Accessor.toOp, World.step, e]
    | code =>
      obtain ⟨v, w1, h1, e, hg, -, rest⟩ := hw.code_frame hi
      exact ⟨w1, h1, by simp [Accessor.toOp, World.step, e], hg, rest⟩
    | domain =>
      obtain ⟨v, w1, h1, e, hg, -, rest⟩ := hw.domain_frame hi
      exact ⟨w1, h1, by simp [Accessor.toOp, World.step, e], hg, rest⟩
    | message =>
      obtain ⟨v, w1, h1, e, hg, -, rest⟩ := hw.message_frame hi
      exact ⟨w1, h1, by simp [Accessor.toOp, World.step, e], hg, rest⟩
    | ToString =>
      obtain ⟨v, w1, h1, e, hg, -, rest⟩ := hw.ToString_frame hi
      exact ⟨w1, h1, by simp [Accessor.toOp, World.step, e], hg, rest⟩
  · intro src s hs
    obtain ⟨w1, e, -, -, -, -, -, hself, hcopy⟩ := hw.operatorAssign_ok hi hs
    by_cases hto : i = src
    · subst hto
      rw [hi] at hs
      cases hs
      exact ⟨w1, AdResult.mk (some (AdResultInternal.mk .null)) h.code_ h.domain_ h.message_
        h.to_string_, e, by rw [World.get_congr (hself rfl), World.get_set_self hi],
        rfl, rfl, rfl, rfl⟩
    · obtain ⟨g, hobj, -⟩ := hcopy hto
      exact ⟨w1, AdResult.mk (some (AdResultInternal.mk g)) s.code_ s.domain_ s.message_
        s.to_string_, e, by rw [World.get_congr hobj, World.get_set_self hi],
        rfl, rfl, rfl, rfl⟩

theorem C9_cache_stability_witness :
    (∀ a : Accessor, ∃ w1 h1, sampleWorld2.step sampleAdError (a.toOp 0) = some w1 ∧
      w1.get 0 = some h1 ∧
      (sampleHandle.code_ ≠ 0 → h1.code_ = sampleHandle.code_) ∧
      (sampleHandle.domain_ ≠ "" → h1.domain_ = sampleHandle.domain_) ∧
      (sampleHandle.message_ ≠ "" → h1.message_ = sampleHandle.message_) ∧
      (sampleHandle.to_string_ ≠ "" → h1.to_string_ = sampleHandle.to_string_)) ∧
    (∀ s, (sampleHandle.set_to_string s).to_string_ = s ∧
      (sampleHandle.set_to_string s).code_ = sampleHandle.code_ ∧
      (sampleHandle.set_to_string s).domain_ = sampleHandle.domain_ ∧
      (sampleHandle.set_to_string s).message_ = sampleHandle.message_) ∧
    (∀ src s, sampleWorld2.get src = some s → ∃ w1 h1,
      sampleWorld2.operatorAssign 0 src = some w1 ∧
      w1.get 0 = some h1 ∧ h1.code_ = s.code_ ∧ h1.domain_ = s.domain_ ∧
      h1.message_ = s.message_ ∧ h1.to_string_ = s.to_string_) :=
  C9_cache_stability sampleAdError [.construct (some 1), .code 0, .construct none]
    sampleWorld2 (by decide) 0 sampleHandle (by decide)

/-- Self-assignment in general: in a well-formed store, `a = a` on a live handle
releases the reference the handle held and leaves it holding null. -/
theorem WF.self_assignment {cls : AdError} {w : World} (hw : WF cls st w) {a : Nat}
    {h : AdResult} (ha : w.get a = some h) :
    ∃ w1, w.operatorAssign a a = some w1 ∧
      w1.get a = some { h with internal_ := some { j_ad_error := .null } } ∧
      w1.is_successful a = some true ∧ w1.code cls a = some (0, w1) := by
  obtain ⟨w1, e, hw1, -, -, -, -, hself, -⟩ := hw.operatorAssign_ok ha ha
  have hg : w1.get a = some { h with internal_ := some { j_ad_error := .null } } := by
    rw [World.get_congr (hself rfl), World.get_set_self ha]
  obtain ⟨h1, h2, -⟩ := World.null_accessors cls hg rfl
  exact ⟨w1, e, hg, h1, h2⟩

/-- C10, the code at the failing input. A handle built for the Java object 1 is not
successful and has code 1; after `a = a` the same handle reports success and code 0,
its reference having been released. -/
theorem C10_self_assignment_drops_reference :
    (World.init.run sampleAdError [.construct (some 1)]).bind
        (fun w => w.is_successful 0) = some false ∧
    ((World.init.run sampleAdError [.construct (some 1)]).bind
        (fun w => w.code sampleAdError 0)).map Prod.fst = some 1 ∧
    (World.init.run sampleAdError [.construct (some 1), .assign 0 0]).bind
        (fun w => w.is_successful 0) = some true ∧
    ((World.init.run sampleAdError [.construct (some 1), .assign 0 0]).bind
        (fun w => w.code sampleAdError 0)).map Prod.fst = some 0 ∧
    (World.init.run sampleAdError [.construct (some 1), .assign 0 0]).map
        (fun w => w.env.globals) = some [(1, false)] := by
  decide

end AdMob
